import Mathlib

/-!
Verification development for the clipxmlai auto-edit engine.

The definitions below are a shallow embedding of the TypeScript sources
`src/utils/auto-editor.ts` (cut-point scheduler, source-segment allocator,
timeline generation), `src/hooks/useAudioAnalysis.ts` (onset/beat detector,
tempo estimator) and the data model of `src/store/useStore.ts`.

Modelling conventions:
- JavaScript numbers are modelled as rationals (the engine performs only
  field arithmetic, comparisons, floor and round on them).
- `Math.random()` is modelled as an explicit stream `rand : ℕ → ℚ` together
  with a counter that is threaded through every computation; each call to
  `Math.random()` reads `rand k` and advances the counter.
- `Math.sqrt` (used only inside the RMS energy envelope) is modelled as an
  explicit function parameter `sq : ℚ → ℚ`; every theorem below holds for an
  arbitrary such function, hence in particular for the real square root.
- `crypto.randomUUID()` only manufactures a fresh opaque identifier for each
  timeline clip; it is modelled by a running counter.
- The two unbounded `while` loops of `generateTimeline` (the metronome grid
  and the legacy mode loop) are modelled with an explicit fuel parameter;
  the beat-locked loop visits at most `beats.length` indices when it
  terminates at all, so its fuel is fixed to `beats.length`.
- `Array.prototype.sort` with the comparator `(a, b) => a.start - b.start`
  is modelled with `List.insertionSort`, which returns a permutation of its
  input that is sorted by the same key.
-/

/-! ### Data model (src/store/useStore.ts, newer revision) -/

/-- Media kind of a storyboard item. -/
inductive MediaType where
  | video
  | image
deriving DecidableEq, Repr

/-- MediaClip of the store: `{id, type, file, name, duration, thumbnail}`.
The `file` and `thumbnail` fields are opaque host objects that the engine
never reads and are omitted. -/
structure MediaClip where
  id : String
  name : String
  type : MediaType
  duration : ℚ
deriving DecidableEq, Repr

/-- Per-instrument beat tracks optionally attached to an audio track. -/
structure InstrumentBeats where
  kick : List ℚ
  snare : List ℚ
  hihat : List ℚ
deriving DecidableEq, Repr

/-- AudioTrack of the store; only the fields read by the engine are kept
(`id`, `file`, `name`, `buffer` are never read by `generateTimeline`). -/
structure AudioTrack where
  duration : ℚ
  beats : List ℚ
  bpm : Option ℚ
  instrumentBeats : Option InstrumentBeats
deriving DecidableEq, Repr

/-- The algorithm tags of `BeatAlgorithm`. -/
inductive BeatAlgorithm where
  | energy
  | spectral
  | ai
  | drums
  | bass
  | guitar
  | vocals
  | voice
  | words
  | sentences
  | melody
  | brass
  | keys
  | silence
  | downbeat
  | phrase
  | intensity
  | harmonic
  | comboEdm
  | comboClip
deriving DecidableEq, Repr

/-- The scheduling modes of `videoMode`. -/
inductive VideoMode where
  | sequentialOnce
  | randomLoop
  | beatLocked
  | metronome
deriving DecidableEq, Repr

/-- The crop modes of `cropMode`; `endMode` models the source tag 'end'
(a Lean keyword). -/
inductive CropMode where
  | random
  | smart
  | center
  | start
  | endMode
  | golden
deriving DecidableEq, Repr

/-- A time-ranged override of `skipEveryN` (`RhythmSegment`). -/
structure RhythmSegment where
  id : String
  startTime : ℚ
  endTime : ℚ
  skipEveryN : ℤ
deriving DecidableEq, Repr

/-- The SyncSettings record. -/
structure SyncSettings where
  minDuration : ℚ
  maxDuration : ℚ
  algorithm : BeatAlgorithm
  videoMode : VideoMode
  cropMode : CropMode
  beatSensitivity : ℚ
  durationVariance : ℚ
  skipEveryN : ℤ
  rhythmSegments : Option (List RhythmSegment)
  manualBpm : Option ℚ
deriving DecidableEq, Repr

/-- A recorded source range `{start, end}`; `stop` models the source field
name 'end' (a Lean keyword). -/
structure UsedRange where
  start : ℚ
  stop : ℚ
deriving DecidableEq, Repr

/-- The dynamic type of the third argument of `findBestSourceRange`: the
TypeScript signature declares it `boolean`, but the body also branches on
`typeof isSmartCrop === 'string'`, so at run time it may be either a crop
mode string or a boolean (the two call sites pass the boolean
`settings.cropMode === 'smart'`). -/
inductive CropArg where
  | str : CropMode → CropArg
  | bool : Bool → CropArg
deriving DecidableEq, Repr

/-- A generated timeline clip. The `id` field stands for the value of
`crypto.randomUUID()` and is modelled as a running counter; `file` is an
opaque host object and is omitted. -/
structure TimelineClip where
  id : ℕ
  videoId : String
  videoIndex : ℕ
  videoName : String
  videoPath : String
  type : MediaType
  duration : ℚ
  timelineStart : ℚ
  timelineEnd : ℚ
  sourceStart : ℚ
  sourceEnd : ℚ
deriving DecidableEq, Repr

/-! ### Source Segment Allocator (auto-editor.ts, findBestSourceRange) -/

/-- Subtraction of one used range `u` from one free interval `f`
(the inner loop of findBestSourceRange, lines 351-370): if `u` is
outside `f` up to the 0.01 tolerance the interval is kept whole,
otherwise it is split around `u`. -/
def subtractOne (u f : UsedRange) : List UsedRange :=
  if u.stop ≤ f.start + 1/100 ∨ u.start ≥ f.stop - 1/100 then
    [f]
  else
    (if u.start > f.start then [⟨f.start, u.start⟩] else []) ++
    (if u.stop < f.stop then [⟨u.stop, f.stop⟩] else [])

/-- Free intervals of a media item: the margin-trimmed span minus all used
ranges, processed in ascending order of their start (the source sorts with
the comparator `(a, b) => a.start - b.start`). -/
def freeIntervals (mediaDuration : ℚ) (usedRanges : List UsedRange) : List UsedRange :=
  let margin := mediaDuration * (1/20)
  let sortedUsed := List.insertionSort (fun a b : UsedRange => a.start ≤ b.start) usedRanges
  sortedUsed.foldl (fun free u => free.flatMap (subtractOne u)) [⟨margin, mediaDuration - margin⟩]

/-- Length-weighted interval selection (lines 380-390): walk the valid
intervals subtracting lengths from `r`; if the loop never fires the seed
`valid[0]` is kept. -/
def pickWeighted (r : ℚ) (fallback : UsedRange) : List UsedRange → UsedRange
  | [] => fallback
  | f :: fs =>
      if r ≤ f.stop - f.start then f else pickWeighted (r - (f.stop - f.start)) fallback fs

/-- findBestSourceRange (auto-editor.ts lines 330-423). Returns the chosen
source offset (`none` = saturated) together with the advanced draw counter. -/
def findBestSourceRange (mediaDuration clipDuration : ℚ) (isSmartCrop : CropArg)
    (usedRanges : List UsedRange) (rand : ℕ → ℚ) (k : ℕ) : Option ℚ × ℕ :=
  let margin := mediaDuration * (1/20)
  let effectiveDuration := mediaDuration - 2 * margin
  if effectiveDuration < clipDuration then
    if mediaDuration > clipDuration then (some ((mediaDuration - clipDuration) / 2), k)
    else (some 0, k)
  else
    let valid := (freeIntervals mediaDuration usedRanges).filter
      (fun f => f.stop - f.start ≥ clipDuration)
    match valid with
    | [] => (none, k)
    | v0 :: _ =>
      let totalLength := valid.foldl (fun acc f => acc + (f.stop - f.start)) 0
      let selectedRange := pickWeighted (rand k * totalLength) v0 valid
      let maxLocalStart := (selectedRange.stop - selectedRange.start) - clipDuration
      match isSmartCrop with
      | CropArg.str CropMode.center => (some (selectedRange.start + maxLocalStart / 2), k + 1)
      | CropArg.str CropMode.start => (some selectedRange.start, k + 1)
      | CropArg.str CropMode.endMode => (some (selectedRange.start + maxLocalStart), k + 1)
      | CropArg.str CropMode.golden =>
          (some (selectedRange.start + maxLocalStart * (382/1000)), k + 1)
      | CropArg.str _ =>
          (some (selectedRange.start + ((rand (k + 1) + rand (k + 2)) / 2) * maxLocalStart), k + 3)
      | CropArg.bool true =>
          (some (selectedRange.start + ((rand (k + 1) + rand (k + 2)) / 2) * maxLocalStart), k + 3)
      | CropArg.bool false =>
          (some (selectedRange.start + rand (k + 1) * maxLocalStart), k + 2)

/-- Pointwise update of the used-segments map (`usedMediaSegments.set`). -/
def updMap (m : String → List UsedRange) (id : String) (v : List UsedRange) :
    String → List UsedRange :=
  fun x => if x = id then v else m x

/-- The per-clip source selection of generateTimeline (lines 166-189, also
280-297): images start at 0; for a video, try the allocator, on saturation
clear the item's history and retry once, fall back to 0, and record the
chosen range. Returns (sourceStart, updated map, draw counter). -/
def selectSource (sel : MediaClip) (clipDuration : ℚ) (isSmart : CropArg)
    (usedMap : String → List UsedRange) (rand : ℕ → ℚ) (k : ℕ) :
    ℚ × (String → List UsedRange) × ℕ :=
  match sel.type with
  | MediaType.image => (0, usedMap, k)
  | MediaType.video =>
    let first := findBestSourceRange sel.duration clipDuration isSmart (usedMap sel.id) rand k
    let afterRetry : Option ℚ × (String → List UsedRange) × ℕ :=
      match first.1 with
      | some v => (some v, usedMap, first.2)
      | none =>
          let second := findBestSourceRange sel.duration clipDuration isSmart [] rand first.2
          (second.1, updMap usedMap sel.id [], second.2)
    let sourceStart := afterRetry.1.getD 0
    let cur := afterRetry.2.1 sel.id
    (sourceStart,
     updMap afterRetry.2.1 sel.id (cur ++ [⟨sourceStart, sourceStart + clipDuration⟩]),
     afterRetry.2.2)

/-! ### Cut-Point Scheduler (auto-editor.ts, lines 54-148) -/

/-- First truthy value of an optional number: JavaScript treats both
`undefined` and `0` as falsy in `a || b` chains. -/
def truthyQ : Option ℚ → Option ℚ
  | none => none
  | some q => if q = 0 then none else some q

/-- Lookup of the rhythm segment active at a beat's timestamp
(`settings.rhythmSegments?.find(...)`). -/
def findSegment (segs : List RhythmSegment) (t : ℚ) : Option RhythmSegment :=
  segs.find? (fun s => decide (t ≥ s.startTime ∧ t < s.endTime))

/-- Emission step of the beat-locked loop (lines 91-99): the landed-on
beat becomes a new cut point when it exists, strictly exceeds the previous
cut point and does not pass the track end. -/
def pushBeat (beats : List ℚ) (total : ℚ) (idx' : ℤ) (acc : List ℚ) : List ℚ :=
  match (if 0 ≤ idx' then beats[idx'.toNat]? else none) with
  | some beatTime =>
      if beatTime > acc.getLastD 0 ∧ beatTime ≤ total then acc ++ [beatTime] else acc
  | none => acc

/-- One iteration of the beat-locked while loop (lines 67-100), entered
with the loop condition `currentBeatIndex < beats.length` known to hold.
`beats[i]` for a negative index is JavaScript `undefined`; all comparisons
against `undefined` are false, which the option-valued lookup reproduces.
The fuel only caps the iteration count: when every effective step is
positive (the loop then terminates in JavaScript as well), fuel
`beats.length` is enough, since the index strictly grows each round. -/
def beatLockedAux (beats : List ℚ) (total : ℚ) (segs : List RhythmSegment)
    (skipN : ℤ) (variance : ℚ) (rand : ℕ → ℚ) :
    ℕ → ℤ → List ℚ → ℕ → List ℚ × ℕ
  | 0, _, acc, k => (acc, k)
  | fuel + 1, idx, acc, k =>
    let currentBeatTime? : Option ℚ := if 0 ≤ idx then beats[idx.toNat]? else none
    let activeSegment := match currentBeatTime? with
      | some t => findSegment segs t
      | none => none
    let currentSkipN : ℤ := match activeSegment with
      | some s => s.skipEveryN
      | none => skipN
    let stepK : ℤ × ℕ :=
      if variance > 0 then
        let maxVar : ℤ := ⌊(currentSkipN : ℚ) * variance * 2⌋
        if maxVar > 0 then
          let delta : ℤ := ⌊rand k * ((maxVar : ℚ) * 2 + 1)⌋ - maxVar
          (max 1 (currentSkipN + delta), k + 1)
        else (max 1 currentSkipN, k)
      else (currentSkipN, k)
    let idx' := idx + stepK.1
    if idx' < (beats.length : ℤ) then
      beatLockedAux beats total segs skipN variance rand fuel idx'
        (pushBeat beats total idx' acc) stepK.2
    else (acc, stepK.2)

/-- Beat-locked cut points (lines 57-107): run the stepping loop from
index 0 with the cut list seeded by `[0]`, then append `totalDuration`
if the last cut point falls short of it. -/
def beatLockedCutPoints (beats : List ℚ) (total : ℚ) (segs : List RhythmSegment)
    (skipN : ℤ) (variance : ℚ) (rand : ℕ → ℚ) (k : ℕ) : List ℚ × ℕ :=
  let res :=
    if 0 < beats.length then
      beatLockedAux beats total segs skipN variance rand beats.length 0 [0] k
    else ([0], k)
  (if res.1.getLastD 0 < total then res.1 ++ [total] else res.1, res.2)

/-- One iteration of the metronome while loop (lines 124-143). -/
def metronomeAux (total baseInterval variance : ℚ) (rand : ℕ → ℚ) :
    ℕ → ℚ → List ℚ → ℕ → List ℚ × ℕ
  | 0, _, acc, k => (acc, k)
  | fuel + 1, current, acc, k =>
    if current < total then
      let intK : ℚ × ℕ :=
        if variance > 0 then
          (max (1/10) (baseInterval + (baseInterval * variance) * ((rand k - 1/2) * 2)), k + 1)
        else (baseInterval, k)
      let next := current + intK.1
      if next > total then (acc, intK.2)
      else
        let acc' := if next > acc.getLastD 0 + 1/20 then acc ++ [next] else acc
        metronomeAux total baseInterval variance rand fuel next acc' intK.2
    else (acc, k)

/-- Metronome cut points (lines 109-148): a steady grid at
`60/bpm * skipEveryN` seconds, with `bpm = manualBpm || audio.bpm || 120`,
optionally snapping the start to the first beat when it is below 0.5 s,
jittered by the variance, capped by the track duration which is appended
at the end if missing. -/
def metronomeCutPoints (beats : List ℚ) (total : ℚ) (bpmOpt manualBpm : Option ℚ)
    (skipN : ℤ) (variance : ℚ) (rand : ℕ → ℚ) (k : ℕ) (fuel : ℕ) : List ℚ × ℕ :=
  let bpm : ℚ := match truthyQ manualBpm with
    | some b => b
    | none => match truthyQ bpmOpt with
      | some b => b
      | none => 120
  let baseInterval := (60 / bpm) * (skipN : ℚ)
  let startInfo : ℚ × List ℚ := match beats with
    | b0 :: _ => if b0 < 1/2 then (b0, if b0 > 1/20 then [0, b0] else [0]) else (0, [0])
    | [] => (0, [0])
  let res := metronomeAux total baseInterval variance rand fuel startInfo.1 startInfo.2 k
  (if res.1.getLastD 0 < total then res.1 ++ [total] else res.1, res.2)

/-- Cut-point selection by mode (lines 54-148): beat-locked needs a
nonempty beat list, metronome needs a truthy manual bpm, a truthy detected
bpm or a nonempty beat list; otherwise no cut points are produced and the
caller falls through to the legacy loop. -/
def scheduleCutPoints (beats : List ℚ) (total : ℚ) (settings : SyncSettings)
    (bpmOpt : Option ℚ) (skipN : ℤ) (variance : ℚ) (rand : ℕ → ℚ) (fuel : ℕ) :
    List ℚ × ℕ :=
  if settings.videoMode = VideoMode.beatLocked ∧ beats ≠ [] then
    beatLockedCutPoints beats total (settings.rhythmSegments.getD []) skipN variance rand 0
  else if settings.videoMode = VideoMode.metronome ∧
      ((truthyQ settings.manualBpm).isSome ∨ (truthyQ bpmOpt).isSome ∨ beats ≠ []) then
    metronomeCutPoints beats total bpmOpt settings.manualBpm skipN variance rand 0 fuel
  else ([], 0)

/-! ### Timeline generation (auto-editor.ts, lines 18-327) -/

/-- Placeholder media item for out-of-range list accesses (JavaScript
`undefined`; never reached on the inputs the engine guards for). -/
def dummyMedia : MediaClip := { id := "", name := "", type := MediaType.video, duration := 0 }

/-- Storyboard index (1-based) of a media id, as built by
`new Map(media.map((v, i) => [v.id, i + 1]))` with `|| 0` on lookup:
for duplicated ids the later entry wins. -/
def mediaIndexOf (media : List MediaClip) (id : String) : ℕ :=
  match ((List.range media.length).filter
      (fun i => (media.getD i dummyMedia).id = id)).getLast? with
  | some i => i + 1
  | none => 0

/-- Construction of one timeline clip record (lines 191-204 / 303-316). -/
def mkClip (idc : ℕ) (sel : MediaClip) (vIndex : ℕ) (clipStart clipEnd sourceStart : ℚ) :
    TimelineClip :=
  { id := idc, videoId := sel.id, videoIndex := vIndex, videoName := sel.name,
    videoPath := "file://" ++ sel.name, type := sel.type,
    duration := clipEnd - clipStart, timelineStart := clipStart, timelineEnd := clipEnd,
    sourceStart := sourceStart, sourceEnd := sourceStart + (clipEnd - clipStart) }

/-- Clip generation between consecutive cut points (lines 150-207): gaps
shorter than 0.05 s are skipped without consuming a media slot; otherwise
the media list is cycled through and the source range allocated. -/
def buildClips (media : List MediaClip) (isSmart : CropArg) (rand : ℕ → ℚ) :
    List ℚ → ℕ → (String → List UsedRange) → ℕ → ℕ → List TimelineClip
  | p1 :: p2 :: rest, videoIdx, usedMap, k, idc =>
    let clipDuration := p2 - p1
    if clipDuration < 1/20 then
      buildClips media isSmart rand (p2 :: rest) videoIdx usedMap k idc
    else
      let sel := media.getD (videoIdx % media.length) dummyMedia
      let res := selectSource sel clipDuration isSmart usedMap rand k
      mkClip idc sel (mediaIndexOf media sel.id) p1 p2 res.1 ::
        buildClips media isSmart rand (p2 :: rest) (videoIdx + 1) res.2.1 res.2.2 (idc + 1)
  | _, _, _, _, _ => []

/-- Next cut time of the legacy loop (lines 217-255). When the random draw
lies in [0, 1) the candidate index is in range; `bestIntermediate || ...`
falls through to `currentTime + maxDuration` when the found beat is the
falsy number 0. -/
def legacyNextCut (beats : List ℚ) (minD maxD total ct : ℚ) (algo : BeatAlgorithm)
    (rand : ℕ → ℚ) (k : ℕ) : ℚ × ℕ :=
  if beats ≠ [] then
    let validBeats := beats.filter (fun b => decide (b > ct + minD))
    if validBeats ≠ [] then
      let isInstrumentMode :=
        algo = BeatAlgorithm.drums ∨ algo = BeatAlgorithm.vocals ∨ algo = BeatAlgorithm.voice
      let range := if isInstrumentMode then min validBeats.length 1 else min validBeats.length 4
      let candidateBeat := validBeats.getD (⌊rand k * (range : ℚ)⌋).toNat 0
      if candidateBeat - ct > maxD then
        let gracePeriod : ℚ := if isInstrumentMode then 3/10 else 0
        if candidateBeat - ct ≤ maxD + gracePeriod then (candidateBeat, k + 1)
        else
          match validBeats.find? (fun b => decide (b - ct ≤ maxD)) with
          | some b => (if b = 0 then ct + maxD else b, k + 1)
          | none => (ct + maxD, k + 1)
      else (candidateBeat, k + 1)
    else (min (ct + maxD) total, k)
  else (min (ct + 2) total, k)

/-- The legacy sequential-once / random-loop generation loop
(lines 211-326), with explicit fuel. The state is (currentTime,
nextMediaIdx, used-segments map, draw counter, previous clip's videoId,
clip id counter). -/
def legacyLoop (media : List MediaClip) (beats : List ℚ) (total minD maxD : ℚ)
    (mode : VideoMode) (algo : BeatAlgorithm) (isSmart : CropArg) (rand : ℕ → ℚ) :
    ℕ → ℚ → ℕ → (String → List UsedRange) → ℕ → Option String → ℕ → List TimelineClip
  | 0, _, _, _, _, _, _ => []
  | fuel + 1, ct, nextMediaIdx, usedMap, k, prevId, idc =>
    if ct < total then
      let nc := legacyNextCut beats minD maxD total ct algo rand k
      let clipDuration := nc.1 - ct
      if mode = VideoMode.sequentialOnce then
        if media.length ≤ nextMediaIdx then []
        else
          let sel := media.getD nextMediaIdx dummyMedia
          let res := selectSource sel clipDuration isSmart usedMap rand nc.2
          let ct2 := if clipDuration ≤ 1/100 then nc.1 + 1/2 else nc.1
          mkClip idc sel (mediaIndexOf media sel.id) ct nc.1 res.1 ::
            legacyLoop media beats total minD maxD mode algo isSmart rand
              fuel ct2 (nextMediaIdx + 1) res.2.1 res.2.2 (some sel.id) (idc + 1)
      else
        let sel0 := media.getD (⌊rand nc.2 * (media.length : ℚ)⌋).toNat dummyMedia
        let selK : MediaClip × ℕ :=
          if 1 < media.length ∧ prevId = some sel0.id then
            let otherMedia := media.filter (fun v => v.id ≠ sel0.id)
            (otherMedia.getD (⌊rand (nc.2 + 1) * (otherMedia.length : ℚ)⌋).toNat dummyMedia,
             nc.2 + 2)
          else (sel0, nc.2 + 1)
        let sel := selK.1
        let res := selectSource sel clipDuration isSmart usedMap rand selK.2
        let ct2 := if clipDuration ≤ 1/100 then nc.1 + 1/2 else nc.1
        mkClip idc sel (mediaIndexOf media sel.id) ct nc.1 res.1 ::
          legacyLoop media beats total minD maxD mode algo isSmart rand
            fuel ct2 nextMediaIdx res.2.1 res.2.2 (some sel.id) (idc + 1)
    else []

/-- The beat list actually used by generateTimeline (lines 24-37): generic
algorithms are remapped onto specific instrument tracks when those were
detected and are nonempty. -/
def effectiveBeats (audio : AudioTrack) (settings : SyncSettings) : List ℚ :=
  match audio.instrumentBeats with
  | none => audio.beats
  | some ib =>
    if settings.algorithm = BeatAlgorithm.drums ∧ ib.kick ≠ [] then ib.kick
    else if settings.algorithm = BeatAlgorithm.comboEdm ∧ ib.kick ≠ [] then ib.kick
    else if settings.algorithm = BeatAlgorithm.voice ∧ ib.hihat ≠ [] then ib.hihat
    else audio.beats

/-- generateTimeline (auto-editor.ts lines 18-327). `fuel` bounds the two
while loops that JavaScript runs unboundedly (metronome grid and legacy
loop); every theorem below quantifies over it or fixes it concretely. -/
def generateTimeline (media : List MediaClip) (audio : Option AudioTrack)
    (settings : SyncSettings) (fuel : ℕ) (rand : ℕ → ℚ) : List TimelineClip :=
  match audio with
  | none => []
  | some audio =>
    if media = [] then []
    else
      let beats := effectiveBeats audio settings
      let totalDuration := if audio.duration = 0 then 1 else audio.duration
      let skipN := if settings.skipEveryN = 0 then 1 else settings.skipEveryN
      let durationVariance := settings.durationVariance / 100
      let cps := scheduleCutPoints beats totalDuration settings audio.bpm skipN
        durationVariance rand fuel
      if cps.1 ≠ [] then
        buildClips media (CropArg.bool (settings.cropMode = CropMode.smart)) rand
          cps.1 0 (fun _ => []) cps.2 0
      else
        legacyLoop media beats totalDuration settings.minDuration settings.maxDuration
          settings.videoMode settings.algorithm
          (CropArg.bool (settings.cropMode = CropMode.smart)) rand
          fuel 0 0 (fun _ => []) 0 none 0

/-! ### Onset/Beat Detector (useAudioAnalysis.ts, lines 186-387) -/

/-- Per-algorithm detection parameters. -/
structure DetectionParams where
  fftSize : ℕ
  hopSize : ℕ
  windowSize : ℕ
  multiplier : ℚ
  noiseFloor : ℚ
  minInterval : ℚ
deriving DecidableEq, Repr

/-- getDetectionParams (lines 195-312). -/
def getDetectionParams : BeatAlgorithm → DetectionParams
  | BeatAlgorithm.drums => ⟨256, 128, 10, 13/10, 1/100, 2/25⟩
  | BeatAlgorithm.bass => ⟨1024, 256, 12, 7/5, 3/200, 3/25⟩
  | BeatAlgorithm.guitar => ⟨512, 256, 12, 27/20, 1/100, 1/10⟩
  | BeatAlgorithm.vocals => ⟨1024, 512, 20, 3/2, 1/125, 3/20⟩
  | BeatAlgorithm.voice => ⟨1024, 512, 20, 3/2, 1/125, 3/20⟩
  | BeatAlgorithm.words => ⟨256, 128, 8, 5/4, 1/200, 3/25⟩
  | BeatAlgorithm.sentences => ⟨2048, 1024, 30, 9/5, 3/200, 4/5⟩
  | BeatAlgorithm.melody => ⟨2048, 512, 25, 8/5, 1/100, 1/5⟩
  | BeatAlgorithm.brass => ⟨512, 256, 15, 7/5, 1/100, 3/25⟩
  | BeatAlgorithm.keys => ⟨512, 256, 15, 7/5, 1/100, 3/25⟩
  | BeatAlgorithm.comboEdm => ⟨256, 128, 10, 13/10, 1/100, 2/25⟩
  | BeatAlgorithm.comboClip => ⟨512, 256, 15, 27/20, 1/125, 3/20⟩
  | _ => ⟨512, 256, 15, 7/5, 1/125, 1/10⟩

/-- Number of hops of the envelope loop `for (i = 0; i < len; i += hop)`. -/
def numWindows (len hop : ℕ) : ℕ := (len + hop - 1) / hop

/-- RMS energy of one analysis window starting at sample `s` (lines
334-343): mean of squares over the window, samples past the end of the
buffer contributing nothing, passed to the host square root `sq`. -/
def energyAt (data : List ℚ) (fft : ℕ) (sq : ℚ → ℚ) (s : ℕ) : ℚ :=
  sq ((((List.range fft).map
    (fun j => if s + j < data.length then (data.getD (s + j) 0) ^ 2 else 0)).sum) / (fft : ℚ))

/-- The RMS energy envelope. -/
def energyList (data : List ℚ) (fft hop : ℕ) (sq : ℚ → ℚ) : List ℚ :=
  (List.range (numWindows data.length hop)).map (fun w => energyAt data fft sq (w * hop))

/-- Positive energy flux (lines 345-351): `flux[0] = 0`, then positive
parts of consecutive energy differences. -/
def fluxList (energies : List ℚ) : List ℚ :=
  0 :: List.zipWith (fun cur prev => if cur - prev > 0 then cur - prev else 0)
    energies.tail energies

/-- Mean of the `windowSize` flux values preceding index `i`. -/
def localAvg (flux : List ℚ) (ws i : ℕ) : ℚ :=
  (((List.range ws).map (fun h => flux.getD (i - (h + 1)) 0)).sum) / (ws : ℚ)

/-- The peak condition at index `i` (lines 368-371). -/
def isPeakAt (flux : List ℚ) (p : DetectionParams) (i : ℕ) : Bool :=
  let currentFlux := flux.getD i 0
  decide (currentFlux > localAvg flux p.windowSize i * p.multiplier ∧
          currentFlux > flux.getD (i - 1) 0 ∧
          currentFlux > flux.getD (i + 1) 0 ∧
          currentFlux > p.noiseFloor)

/-- Timestamp of frame `i` with window-centroid lag compensation
(lines 374-376). -/
def peakTime (p : DetectionParams) (sampleRate : ℚ) (i : ℕ) : ℚ :=
  max 0 (((i * p.hopSize : ℕ) : ℚ) / sampleRate - ((p.fftSize : ℚ) / 2) / sampleRate)

/-- Debouncing relative to the last accepted timestamp `last` (line 379):
a candidate is kept exactly when it exceeds `last` by more than the
minimum interval, and then becomes the new reference. -/
def debounceAux (minInterval : ℚ) : ℚ → List ℚ → List ℚ
  | _, [] => []
  | last, c :: cs =>
      if c - last > minInterval then c :: debounceAux minInterval c cs
      else debounceAux minInterval last cs

/-- Debouncing of a candidate list: the first candidate is always kept. -/
def debounce (minInterval : ℚ) : List ℚ → List ℚ
  | [] => []
  | c :: cs => c :: debounceAux minInterval c cs

/-- detectBeats (lines 315-387) on a decoded mono channel. -/
def detectBeats (channelData : List ℚ) (sampleRate : ℚ) (sq : ℚ → ℚ)
    (algorithm : BeatAlgorithm) (userSensitivityMs : ℚ) : List ℚ :=
  let params := getDetectionParams algorithm
  let minInterval : ℚ := if userSensitivityMs = 0 then 1/100 else userSensitivityMs / 1000
  let flux := fluxList (energyList channelData params.fftSize params.hopSize sq)
  if flux.length < params.windowSize then []
  else
    let candidates := (List.range' params.windowSize
      (flux.length - 1 - params.windowSize)).filter (isPeakAt flux params)
    debounce minInterval (candidates.map (peakTime params sampleRate))

/-! ### Tempo Estimator (useAudioAnalysis.ts, calculateBPM, lines 390-412) -/

/-- calculateBPM: consecutive inter-beat intervals, outlier filter,
median, conversion to BPM, clamp. `Math.round` on positive values agrees
with Mathlib's `round` (half rounds up). -/
def calculateBPM (beats : List ℚ) : ℤ :=
  if beats.length < 2 then 0
  else
    let intervals := (List.range (beats.length - 1)).map
      (fun i => beats.getD (i + 1) 0 - beats.getD i 0)
    let validIntervals := intervals.filter (fun i => decide (i > 1/5 ∧ i < 2))
    if validIntervals = [] then 0
    else
      let sorted := List.insertionSort (fun a b : ℚ => a ≤ b) validIntervals
      let medianInterval := sorted.getD (validIntervals.length / 2) 0
      min 300 (max 40 (round ((60 : ℚ) / medianInterval)))

/-! ### Claim-side definitions

The following definitions are written from the wording of the
specification (not from the source); they are compared against the
source-embedding definitions above by the theorems. -/

/-- Claim side (C6): the consecutive inter-beat intervals of a beat list. -/
def consecutiveIntervals (beats : List ℚ) : List ℚ :=
  (beats.zip beats.tail).map (fun p => p.2 - p.1)

/-- Claim side (C6): the median of a list, taken as the middle element
(upper middle for even lengths) of the ascending sort. -/
def medianQ (l : List ℚ) : ℚ :=
  (List.insertionSort (fun a b : ℚ => a ≤ b) l).getD (l.length / 2) 0

/-- Claim side (C6): the estimateBPM contract as the specification words
it — 0 below two beats, discard intervals outside (0.2 s, 2.0 s), 0 when
nothing remains, otherwise round(60 / median) clamped to [40, 300]. -/
def estimateBPMSpec (beats : List ℚ) : ℤ :=
  if beats.length < 2 then 0
  else
    let valid := (consecutiveIntervals beats).filter (fun i => decide (1/5 < i ∧ i < 2))
    if valid = [] then 0
    else min 300 (max 40 (round ((60 : ℚ) / medianQ valid)))

/-- Two recorded ranges overlap when their interiors intersect
([start, end) intervals that merely touch do not overlap). -/
def overlaps (a b : UsedRange) : Prop := a.start < b.stop ∧ b.start < a.stop

instance (a b : UsedRange) : Decidable (overlaps a b) :=
  inferInstanceAs (Decidable (_ ∧ _))

/-- Claim side (C5): a well-formed recorded range for a media item with
margins `lo`/`hi`: inside the margins and longer than the 0.01 s
subtraction tolerance. -/
def RangeOK (lo hi : ℚ) (u : UsedRange) : Prop :=
  lo ≤ u.start ∧ u.stop ≤ hi ∧ 1/100 < u.stop - u.start

/-- Invariant of the interval-subtraction loop: every free piece lies in
the span, touches no processed used range, and each of its endpoints is
either a span endpoint or an endpoint of a processed used range. -/
def PieceInv (lo hi : ℚ) (ps : List UsedRange) (f : UsedRange) : Prop :=
  lo ≤ f.start ∧ f.stop ≤ hi ∧ (∀ u ∈ ps, ¬ overlaps f u) ∧
  (f.start = lo ∨ ∃ u ∈ ps, f.start = u.stop) ∧
  (f.stop = hi ∨ ∃ u ∈ ps, f.stop = u.start)

/-- Claim side (C2): invariant of a cut-point list under construction —
nonempty, strictly increasing, inside [0, total]. -/
def CutAccInv (total : ℚ) (acc : List ℚ) : Prop :=
  acc ≠ [] ∧ acc.Chain' (· < ·) ∧ ∀ x ∈ acc, 0 ≤ x ∧ x ≤ total

/-- Claim side (C2): the timeline invariant exactly as claimed —
consecutive clips contiguous, the three duration equalities with positive
duration, and coverage of [0, totalDuration]. -/
def C2Spec (total : ℚ) (tl : List TimelineClip) : Prop :=
  (∀ p ∈ tl.zip tl.tail, p.1.timelineEnd = p.2.timelineStart) ∧
  (∀ c ∈ tl, c.duration = c.timelineEnd - c.timelineStart ∧
             c.duration = c.sourceEnd - c.sourceStart ∧ 0 < c.duration) ∧
  tl.head?.map (fun c => c.timelineStart) = some 0 ∧
  tl.getLast?.map (fun c => c.timelineEnd) = some total

instance (total : ℚ) (tl : List TimelineClip) : Decidable (C2Spec total tl) :=
  inferInstanceAs (Decidable (_ ∧ _ ∧ _ ∧ _))

/-- Claim side (C4): the offset the 'center' crop policy demands — the
interval midpoint minus half the clip length, i.e. the interval start plus
half the slack. -/
def centerPolicyOffset (p : UsedRange) (clipDuration : ℚ) : ℚ :=
  p.start + ((p.stop - p.start) - clipDuration) / 2

/-- Claim side (C5): iterated allocation of clip lengths `cds` from one
media item, exactly as the generateTimeline video branch performs it. -/
def allocSeq (m : MediaClip) (isSmart : CropArg) (rand : ℕ → ℚ) :
    List ℚ → (String → List UsedRange) → ℕ → (String → List UsedRange) × ℕ
  | [], um, k => (um, k)
  | cd :: cds, um, k =>
    let res := selectSource m cd isSmart um rand k
    allocSeq m isSmart rand cds res.2.1 res.2.2

/-- Claim side (C5): no allocation of the sequence hit saturation, i.e.
the first allocator attempt of every step returned an offset. -/
def noSatSeq (m : MediaClip) (isSmart : CropArg) (rand : ℕ → ℚ) :
    List ℚ → (String → List UsedRange) → ℕ → Bool
  | [], _, _ => true
  | cd :: cds, um, k =>
    (findBestSourceRange m.duration cd isSmart (um m.id) rand k).1.isSome &&
    (let res := selectSource m cd isSmart um rand k
     noSatSeq m isSmart rand cds res.2.1 res.2.2)

/-! ### Concrete instances used by witnesses and counterexamples -/

/-- The all-zero random stream (every draw is 0, a legal value of
`Math.random()`). -/
def rand0 : ℕ → ℚ := fun _ => 0

/-- A 10-second video item. -/
def vid10 : MediaClip := { id := "v", name := "v.mp4", type := MediaType.video, duration := 10 }

/-- A 1-second video item. -/
def vid1 : MediaClip := { id := "w", name := "w.mp4", type := MediaType.video, duration := 1 }

/-- An image item. -/
def img1 : MediaClip := { id := "i", name := "i.png", type := MediaType.image, duration := 5 }

/-- Base settings: beat-locked, smart crop, no variance, every beat. -/
def baseSettings : SyncSettings :=
  { minDuration := 1/2, maxDuration := 4, algorithm := BeatAlgorithm.energy,
    videoMode := VideoMode.beatLocked, cropMode := CropMode.smart,
    beatSensitivity := 100, durationVariance := 0, skipEveryN := 1,
    rhythmSegments := none, manualBpm := none }

/-- Audio with a single detected beat at 1.5 s on a 3-second track. -/
def audioOneBeat : AudioTrack :=
  { duration := 3, beats := [3/2], bpm := none, instrumentBeats := none }

/-- Audio for the C1 scenario: beats every half second up to 3 s. -/
def audioSix : AudioTrack :=
  { duration := 3, beats := [1/2, 1, 3/2, 2, 5/2, 3], bpm := none, instrumentBeats := none }

/-- Audio whose beat list contains a 20 ms gap (0.98 s, 1 s, 1.02 s, 2 s)
on a 3-second track. -/
def audioTinyGap : AudioTrack :=
  { duration := 3, beats := [49/50, 1, 51/50, 2], bpm := none, instrumentBeats := none }

/-- Audio with no beats on a 4-second track. -/
def audioNoBeats : AudioTrack :=
  { duration := 4, beats := [], bpm := none, instrumentBeats := none }

/-- The interval list built by the index loop of calculateBPM coincides
with the list of consecutive differences. -/
theorem range_map_diff (l : List ℚ) :
    (List.range (l.length - 1)).map (fun i => l.getD (i + 1) 0 - l.getD i 0) =
    consecutiveIntervals l := by
  induction l with
  | nil => rfl
  | cons a l' ih =>
    cases l' with
    | nil => rfl
    | cons b t =>
      have hlen : (a :: b :: t).length - 1 = ((b :: t).length - 1) + 1 := by
        simp [List.length_cons]
      rw [consecutiveIntervals, List.tail_cons, List.zip_cons_cons, List.map_cons, hlen,
        List.range_succ_eq_map, List.map_cons, List.map_map]
      refine congrArg₂ _ (by simp) ?_
      have ih' : List.map (fun i => (b :: t).getD (i + 1) 0 - (b :: t).getD i 0)
          (List.range ((b :: t).length - 1)) = List.map (fun p => p.2 - p.1) ((b :: t).zip t) := by
        rw [ih, consecutiveIntervals, List.tail_cons]
      rw [← ih']
      refine List.map_congr_left ?_
      intro i _
      simp [Function.comp, List.getD_cons_succ]

/-- C6: calculateBPM implements the estimateBPM contract word for word —
0 below two beats, outlier filter on the open interval (0.2 s, 2.0 s),
0 when nothing remains, otherwise 60 over the median interval, rounded
and clamped to [40, 300]. -/
theorem C6_estimate_bpm (beats : List ℚ) : calculateBPM beats = estimateBPMSpec beats := by
  simp only [calculateBPM, estimateBPMSpec, medianQ, range_map_diff, gt_iff_lt,
    List.length_insertionSort]

/-- Debounced output is a sublist of the candidate list. -/
theorem debounceAux_sublist (minI : ℚ) : ∀ (cs : List ℚ) (last : ℚ),
    (debounceAux minI last cs).Sublist cs := by
  intro cs
  induction cs with
  | nil => intro last; simp [debounceAux]
  | cons c cs ih =>
      intro last
      simp only [debounceAux]
      split_ifs
      · exact (ih c).cons₂ c
      · exact (ih last).cons c

/-- Debounced output is a sublist of the input. -/
theorem debounce_sublist (minI : ℚ) (l : List ℚ) : (debounce minI l).Sublist l := by
  cases l with
  | nil => simp [debounce]
  | cons c cs => exact (debounceAux_sublist minI cs c).cons₂ c

/-- The head of a debounced tail exceeds the reference timestamp by more
than the minimum interval. -/
theorem debounceAux_head (minI : ℚ) : ∀ (cs : List ℚ) (last x : ℚ),
    (debounceAux minI last cs).head? = some x → minI < x - last := by
  intro cs
  induction cs with
  | nil => intro last x h; simp [debounceAux] at h
  | cons c cs ih =>
      intro last x h
      simp only [debounceAux] at h
      split_ifs at h with hc
      · simp only [List.head?_cons, Option.some.injEq] at h
        exact h ▸ hc
      · exact ih last x h

/-- Successive debounced timestamps are more than the minimum interval
apart. -/
theorem debounceAux_chain' (minI : ℚ) : ∀ (cs : List ℚ) (last : ℚ),
    (debounceAux minI last cs).Chain' (fun a b => minI < b - a) := by
  intro cs
  induction cs with
  | nil => intro last; simp [debounceAux]
  | cons c cs ih =>
      intro last
      simp only [debounceAux]
      split_ifs
      · rw [List.chain'_cons']
        exact ⟨fun y hy => debounceAux_head minI cs c y hy, ih c⟩
      · exact ih last

/-- Gap guarantee of the debouncing pass. -/
theorem debounce_chain' (minI : ℚ) (l : List ℚ) :
    (debounce minI l).Chain' (fun a b => minI < b - a) := by
  cases l with
  | nil => simp [debounce]
  | cons c cs =>
      rw [debounce, List.chain'_cons']
      exact ⟨fun y hy => debounceAux_head minI cs c y hy, debounceAux_chain' minI cs c⟩

/-- Two chain facts combine into a chain of the conjunction. -/
theorem chain'_conj {α : Type} {R S : α → α → Prop} :
    ∀ {l : List α}, l.Chain' R → l.Chain' S → l.Chain' (fun a b => R a b ∧ S a b) := by
  intro l
  induction l with
  | nil => intro _ _; exact List.chain'_nil
  | cons a t ih =>
      cases t with
      | nil => intro _ _; exact List.chain'_singleton a
      | cons b t' =>
          intro h1 h2
          rw [List.chain'_cons] at h1 h2 ⊢
          exact ⟨⟨h1.1, h2.1⟩, ih h1.2 h2.2⟩

/-- Every detection profile has a positive hop size and a window-times-hop
span exceeding half the analysis window. -/
theorem detection_params_sound (a : BeatAlgorithm) :
    0 < (getDetectionParams a).hopSize ∧
    (getDetectionParams a).fftSize < 2 * (getDetectionParams a).windowSize *
      (getDetectionParams a).hopSize := by
  cases a <;> exact ⟨by decide, by decide⟩

/-- On indices at or beyond the window size the compensated timestamp is
strictly increasing (the max-with-0 clamp never fires there). -/
theorem peakTime_strictMono (p : DetectionParams) (sr : ℚ) (hsr : 0 < sr)
    (hp : 0 < p.hopSize) (hf : p.fftSize < 2 * p.windowSize * p.hopSize)
    {i j : ℕ} (hi : p.windowSize ≤ i) (hij : i < j) :
    peakTime p sr i < peakTime p sr j := by
  have key : ∀ m : ℕ, p.windowSize ≤ m →
      (0 : ℚ) < ((m * p.hopSize : ℕ) : ℚ) / sr - ((p.fftSize : ℚ) / 2) / sr := by
    intro m hm
    rw [sub_pos]
    have hnum : (p.fftSize : ℚ) / 2 < ((m * p.hopSize : ℕ) : ℚ) := by
      push_cast
      have h2 : (p.fftSize : ℚ) < 2 * p.windowSize * p.hopSize := by exact_mod_cast hf
      have h3 : (p.windowSize : ℚ) * p.hopSize ≤ (m : ℚ) * p.hopSize := by
        have := Nat.mul_le_mul_right p.hopSize hm
        exact_mod_cast this
      linarith
    calc ((p.fftSize : ℚ) / 2) / sr < ((m * p.hopSize : ℕ) : ℚ) / sr := by gcongr
    _ = ((m * p.hopSize : ℕ) : ℚ) / sr := rfl
  have hxi := key i hi
  have hxj := key j (le_trans hi (le_of_lt hij))
  rw [peakTime, peakTime, max_eq_right (le_of_lt hxi), max_eq_right (le_of_lt hxj)]
  have hnum : ((i * p.hopSize : ℕ) : ℚ) < ((j * p.hopSize : ℕ) : ℚ) := by
    exact_mod_cast (Nat.mul_lt_mul_right hp).mpr hij
  have : ((i * p.hopSize : ℕ) : ℚ) / sr < ((j * p.hopSize : ℕ) : ℚ) / sr := by gcongr
  linarith

/-- C3: for every input buffer, square-root function, algorithm and
sensitivity, the detector's output timestamps are strictly increasing and
consecutive timestamps differ by at least (indeed strictly more than) the
effective debounce interval, 0.01 s when the sensitivity is 0 and
sensitivity/1000 seconds otherwise. -/
theorem C3_detector_gaps (channelData : List ℚ) (sampleRate : ℚ) (sq : ℚ → ℚ)
    (algorithm : BeatAlgorithm) (sens : ℚ) (hsr : 0 < sampleRate) :
    (detectBeats channelData sampleRate sq algorithm sens).Chain'
      (fun a b => a < b ∧ (if sens = 0 then (1/100 : ℚ) else sens / 1000) ≤ b - a) := by
  set p := getDetectionParams algorithm with hp
  set minI : ℚ := if sens = 0 then (1/100 : ℚ) else sens / 1000 with hminI
  set flux := fluxList (energyList channelData p.fftSize p.hopSize sq) with hflux
  by_cases hshort : flux.length < p.windowSize
  · simp only [detectBeats, ← hp, ← hminI, ← hflux, if_pos hshort]
    exact List.chain'_nil
  · set candidates := (List.range' p.windowSize (flux.length - 1 - p.windowSize)).filter
      (isPeakAt flux p) with hcand
    set L := candidates.map (peakTime p sampleRate) with hL
    have hgoal : detectBeats channelData sampleRate sq algorithm sens = debounce minI L := by
      simp only [detectBeats, ← hp, ← hminI, ← hflux, if_neg hshort, ← hcand, ← hL]
    rw [hgoal]
    have hparams := detection_params_sound algorithm
    have hcand_range : ∀ a ∈ candidates, p.windowSize ≤ a := by
      intro a ha
      have : a ∈ List.range' p.windowSize (flux.length - 1 - p.windowSize) :=
        (List.mem_filter.mp ha).1
      exact (List.mem_range'_1.mp this).1
    have hcand_pw : candidates.Pairwise (· < ·) :=
      List.Pairwise.sublist (List.filter_sublist _) (List.pairwise_lt_range' _ _ _)
    have hLpw : L.Pairwise (· < ·) := by
      rw [hL, List.pairwise_map]
      refine hcand_pw.imp_of_mem ?_
      intro a b ha hb hab
      exact peakTime_strictMono p sampleRate hsr hparams.1 hparams.2 (hcand_range a ha) hab
    have hsub : (debounce minI L).Sublist L := debounce_sublist minI L
    have h1 : (debounce minI L).Pairwise (· < ·) := List.Pairwise.sublist hsub hLpw
    have h2 : (debounce minI L).Chain' (fun a b => minI ≤ b - a) :=
      (debounce_chain' minI L).imp (fun a b h => le_of_lt h)
    exact chain'_conj h1.chain' h2

/-- Witness for C3 at a concrete input. -/
theorem C3_detector_gaps_witness :
    (0 : ℚ) < 44100 ∧
    (detectBeats [] 44100 id BeatAlgorithm.energy 100).Chain'
      (fun a b => a < b ∧ (if (100 : ℚ) = 0 then (1/100 : ℚ) else 100 / 1000) ≤ b - a) :=
  ⟨by norm_num, C3_detector_gaps [] 44100 id BeatAlgorithm.energy 100 (by norm_num)⟩

/-- The weighted pick returns the seed or a member of the walked list. -/
theorem pickWeighted_mem : ∀ (l : List UsedRange) (r : ℚ) (fb : UsedRange),
    pickWeighted r fb l ∈ fb :: l := by
  intro l
  induction l with
  | nil => intro r fb; simp [pickWeighted]
  | cons f fs ih =>
      intro r fb
      simp only [pickWeighted]
      split_ifs
      · simp
      · have := ih (r - (f.stop - f.start)) fb
        simp only [List.mem_cons] at this ⊢
        tauto

/-- Interval subtraction only shrinks intervals: every produced piece
stays inside the bounds of the piece it came from. -/
theorem subtractOne_bounds (lo hi : ℚ) (u f : UsedRange)
    (hf : lo ≤ f.start ∧ f.stop ≤ hi) :
    ∀ g ∈ subtractOne u f, lo ≤ g.start ∧ g.stop ≤ hi := by
  intro g hg
  rw [subtractOne] at hg
  split_ifs at hg with htol hc1 hc2 hc3
  · simp only [List.mem_singleton] at hg
    exact hg ▸ hf
  · push_neg at htol
    simp only [List.mem_append, List.mem_singleton] at hg
    rcases hg with hg | hg <;> subst hg
    · exact ⟨hf.1, by linarith [htol.2]⟩
    · exact ⟨by linarith [htol.1], hf.2⟩
  · push_neg at htol
    simp only [List.mem_append, List.mem_singleton, List.not_mem_nil, or_false] at hg
    subst hg
    exact ⟨hf.1, by linarith [htol.2]⟩
  · push_neg at htol
    simp only [List.mem_append, List.mem_singleton, List.not_mem_nil, false_or] at hg
    subst hg
    exact ⟨by linarith [htol.1], hf.2⟩
  · simp at hg

/-- The interval-subtraction fold keeps every piece inside the original
span, for arbitrary used ranges. -/
theorem subtract_fold_bounds (lo hi : ℚ) :
    ∀ (l : List UsedRange) (pieces : List UsedRange),
      (∀ f ∈ pieces, lo ≤ f.start ∧ f.stop ≤ hi) →
      ∀ f ∈ l.foldl (fun fs u => fs.flatMap (subtractOne u)) pieces,
        lo ≤ f.start ∧ f.stop ≤ hi := by
  intro l
  induction l with
  | nil => intro pieces hp; simpa using hp
  | cons u l' ih =>
      intro pieces hp
      simp only [List.foldl_cons]
      refine ih _ ?_
      intro g hg
      obtain ⟨f, hf, hgf⟩ := List.mem_flatMap.mp hg
      exact subtractOne_bounds lo hi u f (hp f hf) g hgf

/-- Every free interval lies inside the margin-trimmed span, whatever the
used-range set is. -/
theorem freeIntervals_bounds (md : ℚ) (used : List UsedRange) :
    ∀ f ∈ freeIntervals md used,
      md * (1/20) ≤ f.start ∧ f.stop ≤ md - md * (1/20) := by
  intro f hf
  refine subtract_fold_bounds (md * (1/20)) (md - md * (1/20)) _ _ ?_ f hf
  intro g hg
  simp only [List.mem_singleton] at hg
  subst hg
  exact ⟨le_refl _, le_refl _⟩

/-- Shifting inside the slack keeps the allocated range inside the chosen
interval. -/
theorem offset_shift_bounds (p : UsedRange) (cd e : ℚ)
    (he0 : 0 ≤ e) (he1 : e ≤ (p.stop - p.start) - cd) :
    p.start ≤ p.start + e ∧ (p.start + e) + cd ≤ p.stop :=
  ⟨by linarith, by linarith⟩

/-- When the normal path of findBestSourceRange returns an offset, the
offset together with the clip length fits inside one free interval that is
at least clip-length long. -/
theorem fbsr_some_bounds (md cd : ℚ) (crop : CropArg) (used : List UsedRange)
    (rand : ℕ → ℚ) (k : ℕ)
    (hrand : ∀ n, 0 ≤ rand n ∧ rand n < 1)
    (hle : ¬ (md - 2 * (md * (1/20)) < cd))
    {o : ℚ} (ho : (findBestSourceRange md cd crop used rand k).1 = some o) :
    ∃ p ∈ freeIntervals md used, cd ≤ p.stop - p.start ∧ p.start ≤ o ∧ o + cd ≤ p.stop := by
  rw [findBestSourceRange] at ho
  simp only [if_neg hle] at ho
  rcases hv : (freeIntervals md used).filter (fun f => f.stop - f.start ≥ cd) with _ | ⟨v0, vs⟩
  · rw [hv] at ho
    simp at ho
  · rw [hv] at ho
    set p := pickWeighted
      (rand k * List.foldl (fun acc f => acc + (f.stop - f.start)) 0 (v0 :: vs)) v0 (v0 :: vs)
      with hpick
    have hpmem : p ∈ v0 :: vs := by
      have h0 := pickWeighted_mem (v0 :: vs)
        (rand k * List.foldl (fun acc f => acc + (f.stop - f.start)) 0 (v0 :: vs)) v0
      rw [← hpick] at h0
      simp only [List.mem_cons] at h0 ⊢
      tauto
    have hpfilter : p ∈ (freeIntervals md used).filter (fun f => f.stop - f.start ≥ cd) := by
      rw [hv]; exact hpmem
    have hpfree : p ∈ freeIntervals md used := (List.mem_filter.mp hpfilter).1
    have hplen : cd ≤ p.stop - p.start := by
      have := (List.mem_filter.mp hpfilter).2
      exact of_decide_eq_true this
    have hmax : 0 ≤ (p.stop - p.start) - cd := by linarith
    refine ⟨p, hpfree, hplen, ?_⟩
    have hsmart : o = p.start + ((rand (k + 1) + rand (k + 2)) / 2) *
        ((p.stop - p.start) - cd) → p.start ≤ o ∧ o + cd ≤ p.stop := by
      intro hjo
      have h1 := (hrand (k + 1)).1
      have h2 := (hrand (k + 2)).1
      have h3 := (hrand (k + 1)).2
      have h4 := (hrand (k + 2)).2
      subst hjo
      refine offset_shift_bounds p cd _ ?_ ?_
      · positivity
      · nlinarith
    cases crop with
    | str m =>
        cases m with
        | center =>
            simp only [Option.some.injEq] at ho
            subst ho
            exact offset_shift_bounds p cd _ (by linarith) (by linarith)
        | start =>
            simp only [Option.some.injEq] at ho
            subst ho
            exact ⟨by linarith, by linarith⟩
        | endMode =>
            simp only [Option.some.injEq] at ho
            subst ho
            exact offset_shift_bounds p cd _ (by linarith) (by linarith)
        | golden =>
            simp only [Option.some.injEq] at ho
            subst ho
            refine offset_shift_bounds p cd _ ?_ ?_
            · positivity
            · nlinarith
        | smart =>
            simp only [Option.some.injEq] at ho
            exact hsmart ho.symm
        | random =>
            simp only [Option.some.injEq] at ho
            exact hsmart ho.symm
    | bool b =>
        cases b with
        | true =>
            simp only [Option.some.injEq] at ho
            exact hsmart ho.symm
        | false =>
            simp only [Option.some.injEq] at ho
            subst ho
            have h1 := (hrand (k + 1)).1
            have h2 := (hrand (k + 1)).2
            refine offset_shift_bounds p cd _ ?_ ?_
            · positivity
            · nlinarith

/-- C10: whenever the margin-trimmed span is at least the clip length and
the random draws lie in [0, 1), every offset the allocator returns
respects both margins: margin ≤ offset and offset + clipDuration ≤
mediaDuration − margin, for every crop branch and every used-range set. -/
theorem C10_margin_bounds (md cd : ℚ) (crop : CropArg) (used : List UsedRange)
    (rand : ℕ → ℚ) (k : ℕ)
    (hrand : ∀ n, 0 ≤ rand n ∧ rand n < 1)
    (hspan : 2 * (md * (1/20)) + cd ≤ md)
    {o : ℚ} (ho : (findBestSourceRange md cd crop used rand k).1 = some o) :
    md * (1/20) ≤ o ∧ o + cd ≤ md - md * (1/20) := by
  have hle : ¬ (md - 2 * (md * (1/20)) < cd) := by linarith
  obtain ⟨p, hpmem, _, hpo1, hpo2⟩ := fbsr_some_bounds md cd crop used rand k hrand hle ho
  have hb := freeIntervals_bounds md used p hpmem
  exact ⟨le_trans hb.1 hpo1, le_trans hpo2 hb.2⟩

/-- Witness for C10 at a concrete input: a 10 s video, a 2 s clip, smart
crop, no used ranges and the all-zero stream give offset 0.5. -/
theorem C10_margin_bounds_witness :
    (∀ n, 0 ≤ rand0 n ∧ rand0 n < 1) ∧ 2 * ((10:ℚ) * (1/20)) + 2 ≤ 10 ∧
    ((10:ℚ) * (1/20) ≤ 1/2 ∧ (1:ℚ)/2 + 2 ≤ 10 - 10 * (1/20)) :=
  ⟨fun n => by norm_num [rand0], by norm_num,
   C10_margin_bounds 10 2 (CropArg.bool true) [] rand0 0
     (fun n => by norm_num [rand0]) (by norm_num)
     (show (findBestSourceRange 10 2 (CropArg.bool true) [] rand0 0).1 = some (1/2) by
       with_unfolding_all decide)⟩

/-- A saturated allocator call leaves the draw counter untouched: the
whole result is (none, k). -/
theorem fbsr_none_eq (md cd : ℚ) (crop : CropArg) (used : List UsedRange)
    (rand : ℕ → ℚ) (k : ℕ)
    (h : (findBestSourceRange md cd crop used rand k).1 = none) :
    findBestSourceRange md cd crop used rand k = (none, k) := by
  by_cases h1 : md - 2 * (md * (1/20)) < cd
  · rw [findBestSourceRange, if_pos h1] at h
    by_cases h2 : md > cd
    · rw [if_pos h2] at h
      simp at h
    · rw [if_neg h2] at h
      simp at h
  · rw [findBestSourceRange, if_neg h1] at h ⊢
    rcases hv : (freeIntervals md used).filter (fun f => f.stop - f.start ≥ cd) with _ | ⟨v0, vs⟩
    · simp only [hv]
    · exfalso
      rw [hv] at h
      cases crop with
      | str m => cases m <;> simp at h
      | bool b => cases b <;> simp at h

/-- C9: a video no longer than the requested clip always yields offset 0
(first allocator attempt, no saturation), and the recorded source range is
[0, clipDuration), which reaches at least to the media item's end. -/
theorem C9_short_media_overrun (m : MediaClip) (cd : ℚ) (crop : CropArg)
    (um : String → List UsedRange) (rand : ℕ → ℚ) (k : ℕ)
    (htype : m.type = MediaType.video) (hmd : m.duration ≤ cd) (hcd : 0 < cd) :
    (findBestSourceRange m.duration cd crop (um m.id) rand k).1 = some 0 ∧
    (selectSource m cd crop um rand k).1 = 0 ∧
    (selectSource m cd crop um rand k).2.1 m.id = um m.id ++ [⟨0, 0 + cd⟩] ∧
    m.duration ≤ 0 + cd := by
  have hpair : findBestSourceRange m.duration cd crop (um m.id) rand k = (some 0, k) := by
    rw [findBestSourceRange]
    have hcond : m.duration - 2 * (m.duration * (1/20)) < cd := by linarith
    rw [if_pos hcond, if_neg (not_lt.mpr hmd)]
  refine ⟨by rw [hpair], ?_, ?_, by linarith⟩
  · simp only [selectSource, htype, hpair, Option.getD_some]
  · simp only [selectSource, htype, hpair, updMap, Option.getD_some, eq_self_iff_true, if_true]

/-- Witness for C9: a 1 s video与 a 2 s clip. -/
theorem C9_short_media_overrun_witness :
    vid1.type = MediaType.video ∧ vid1.duration ≤ 2 ∧ (0:ℚ) < 2 ∧
    ((findBestSourceRange vid1.duration 2 (CropArg.bool true)
        ((fun _ => []) vid1.id) rand0 0).1 = some 0 ∧
      (selectSource vid1 2 (CropArg.bool true) (fun _ => []) rand0 0).1 = 0 ∧
      (selectSource vid1 2 (CropArg.bool true) (fun _ => []) rand0 0).2.1 vid1.id =
        (fun _ => ([] : List UsedRange)) vid1.id ++ [⟨0, 0 + 2⟩] ∧
      vid1.duration ≤ 0 + 2) :=
  ⟨rfl, by norm_num [vid1], by norm_num,
   C9_short_media_overrun vid1 2 (CropArg.bool true) (fun _ => []) rand0 0 rfl
     (by norm_num [vid1]) (by norm_num)⟩

/-- C7: on saturation (first attempt returns none) the caller clears the
item's history, retries exactly once on the empty set, uses offset 0 when
even the retry fails, records the range, and the clip production continues
with exactly this state. -/
theorem C7_saturation_retry (m : MediaClip) (cd : ℚ) (crop : CropArg)
    (um : String → List UsedRange) (rand : ℕ → ℚ) (k : ℕ)
    (htype : m.type = MediaType.video)
    (hsat : (findBestSourceRange m.duration cd crop (um m.id) rand k).1 = none) :
    (selectSource m cd crop um rand k).1 =
      (findBestSourceRange m.duration cd crop [] rand k).1.getD 0 ∧
    (selectSource m cd crop um rand k).2.1 m.id =
      [⟨(findBestSourceRange m.duration cd crop [] rand k).1.getD 0,
        (findBestSourceRange m.duration cd crop [] rand k).1.getD 0 + cd⟩] ∧
    (selectSource m cd crop um rand k).2.2 =
      (findBestSourceRange m.duration cd crop [] rand k).2 := by
  have hpair := fbsr_none_eq m.duration cd crop (um m.id) rand k hsat
  refine ⟨?_, ?_, ?_⟩ <;>
    simp only [selectSource, htype, hpair, updMap, eq_self_iff_true, if_true,
      List.nil_append]

/-- Witness for C7: a 10 s video whose margin-trimmed span is fully
covered by one used range saturates the first attempt; the retry on the
cleared history returns offset 0.5. -/
theorem C7_saturation_retry_witness :
    vid10.type = MediaType.video ∧
    (findBestSourceRange vid10.duration 2 (CropArg.bool true)
      ((fun _ => [(⟨1/2, 19/2⟩ : UsedRange)]) vid10.id) rand0 0).1 = none ∧
    ((selectSource vid10 2 (CropArg.bool true) (fun _ => [⟨1/2, 19/2⟩]) rand0 0).1 =
      (findBestSourceRange vid10.duration 2 (CropArg.bool true) [] rand0 0).1.getD 0 ∧
     (selectSource vid10 2 (CropArg.bool true) (fun _ => [⟨1/2, 19/2⟩]) rand0 0).2.1 vid10.id =
      [⟨(findBestSourceRange vid10.duration 2 (CropArg.bool true) [] rand0 0).1.getD 0,
        (findBestSourceRange vid10.duration 2 (CropArg.bool true) [] rand0 0).1.getD 0 + 2⟩] ∧
     (selectSource vid10 2 (CropArg.bool true) (fun _ => [⟨1/2, 19/2⟩]) rand0 0).2.2 =
      (findBestSourceRange vid10.duration 2 (CropArg.bool true) [] rand0 0).2) :=
  ⟨rfl, by with_unfolding_all decide,
   C7_saturation_retry vid10 2 (CropArg.bool true) (fun _ => [⟨1/2, 19/2⟩]) rand0 0 rfl
     (by with_unfolding_all decide)⟩

/-- Overlap of ranges is symmetric. -/
theorem overlaps_symm {a b : UsedRange} (h : overlaps a b) : overlaps b a :=
  ⟨h.2, h.1⟩

/-- One subtraction step preserves the free-piece invariant: the key point
is that the 0.01 tolerance can keep an interval that a used range pokes
into only if that used range is at most 0.01 long or overlaps another
recorded range, both excluded here. -/
theorem subtractOne_inv (lo hi : ℚ) (ps : List UsedRange) (u0 f : UsedRange)
    (hf : PieceInv lo hi ps f) (hu0 : RangeOK lo hi u0)
    (hps : ∀ v ∈ ps, RangeOK lo hi v)
    (hcross : ∀ v ∈ ps, ¬ overlaps u0 v) :
    ∀ g ∈ subtractOne u0 f, PieceInv lo hi (ps ++ [u0]) g := by
  obtain ⟨hf1, hf2, hf3, hf4, hf5⟩ := hf
  obtain ⟨hu1, hu2, hu3⟩ := hu0
  intro g hg
  by_cases htol : (u0.stop ≤ f.start + 1/100 ∨ u0.start ≥ f.stop - 1/100)
  · rw [subtractOne, if_pos htol] at hg
    simp only [List.mem_singleton] at hg
    subst hg
    refine ⟨hf1, hf2, ?_, ?_, ?_⟩
    · intro u hu
      rcases List.mem_append.mp hu with hu | hu
      · exact hf3 u hu
      · simp only [List.mem_singleton] at hu
        subst hu
        intro hov
        rcases htol with htolA | htolB
        · rcases hf4 with h4 | ⟨v, hv, h4⟩
          · rw [h4] at htolA
            exact absurd hu3 (not_lt.mpr (by linarith))
          · have hdisj := hcross v hv
            rw [overlaps, not_and_or, not_lt, not_lt] at hdisj
            have hvok := hps v hv
            have hvlen : v.start < v.stop := by have := hvok.2.2; linarith
            rcases hdisj with hd | hd
            · rw [h4] at htolA
              exact absurd hu3 (not_lt.mpr (by linarith))
            · have hov1 : g.start < u.stop := hov.1
              linarith
        · rcases hf5 with h5 | ⟨v, hv, h5⟩
          · rw [h5] at htolB
            exact absurd hu3 (not_lt.mpr (by linarith))
          · have hdisj := hcross v hv
            rw [overlaps, not_and_or, not_lt, not_lt] at hdisj
            have hvok := hps v hv
            have hvlen : v.start < v.stop := by have := hvok.2.2; linarith
            rcases hdisj with hd | hd
            · have hov2 : u.start < g.stop := hov.2
              linarith
            · rw [h5] at htolB
              exact absurd hu3 (not_lt.mpr (by linarith))
    · rcases hf4 with h4 | ⟨v, hv, h4⟩
      · exact Or.inl h4
      · exact Or.inr ⟨v, List.mem_append_left _ hv, h4⟩
    · rcases hf5 with h5 | ⟨v, hv, h5⟩
      · exact Or.inl h5
      · exact Or.inr ⟨v, List.mem_append_left _ hv, h5⟩
  · push_neg at htol
    obtain ⟨htA, htB⟩ := htol
    have hu0mem : u0 ∈ ps ++ [u0] := List.mem_append_right _ (List.mem_singleton.mpr rfl)
    have hleft : PieceInv lo hi (ps ++ [u0]) ⟨f.start, u0.start⟩ := by
      refine ⟨hf1, show u0.start ≤ hi by linarith, ?_, ?_, ?_⟩
      · intro u hu
        rcases List.mem_append.mp hu with hu | hu
        · intro hov
          have hov1 : f.start < u.stop := hov.1
          have hov2 : u.start < u0.start := hov.2
          exact hf3 u hu ⟨hov1, by linarith⟩
        · simp only [List.mem_singleton] at hu
          subst hu
          intro hov
          exact absurd (show u.start < u.start from hov.2) (lt_irrefl _)
      · rcases hf4 with h4 | ⟨v, hv, h4⟩
        · exact Or.inl h4
        · exact Or.inr ⟨v, List.mem_append_left _ hv, h4⟩
      · exact Or.inr ⟨u0, hu0mem, rfl⟩
    have hright : PieceInv lo hi (ps ++ [u0]) ⟨u0.stop, f.stop⟩ := by
      refine ⟨show lo ≤ u0.stop by linarith, hf2, ?_, ?_, ?_⟩
      · intro u hu
        rcases List.mem_append.mp hu with hu | hu
        · intro hov
          have hov1 : u0.stop < u.stop := hov.1
          have hov2 : u.start < f.stop := hov.2
          exact hf3 u hu ⟨by linarith, hov2⟩
        · simp only [List.mem_singleton] at hu
          subst hu
          intro hov
          exact absurd (show u.stop < u.stop from hov.1) (lt_irrefl _)
      · exact Or.inr ⟨u0, hu0mem, rfl⟩
      · rcases hf5 with h5 | ⟨v, hv, h5⟩
        · exact Or.inl h5
        · exact Or.inr ⟨v, List.mem_append_left _ hv, h5⟩
    rw [subtractOne, if_neg (by push_neg; exact ⟨htA, htB⟩)] at hg
    rcases List.mem_append.mp hg with hg | hg
    · split_ifs at hg with hc
      · simp only [List.mem_singleton] at hg
        subst hg
        exact hleft
      · simp at hg
    · split_ifs at hg with hc
      · simp only [List.mem_singleton] at hg
        subst hg
        exact hright
      · simp at hg

/-- The interval-subtraction fold keeps the free-piece invariant while
accumulating processed used ranges. -/
theorem subtract_fold_inv (lo hi : ℚ) :
    ∀ (l ps pieces : List UsedRange),
      (∀ u ∈ ps ++ l, RangeOK lo hi u) →
      (ps ++ l).Pairwise (fun a b => ¬ overlaps a b) →
      (∀ f ∈ pieces, PieceInv lo hi ps f) →
      ∀ f ∈ l.foldl (fun fs u => fs.flatMap (subtractOne u)) pieces,
        PieceInv lo hi (ps ++ l) f := by
  intro l
  induction l with
  | nil =>
      intro ps pieces _ _ hp
      simpa using hp
  | cons u0 l' ih =>
      intro ps pieces hok hpw hp
      have hassoc : ps ++ u0 :: l' = (ps ++ [u0]) ++ l' := by
        simp [List.append_assoc]
      rw [hassoc] at hok hpw ⊢
      simp only [List.foldl_cons]
      refine ih (ps ++ [u0]) _ hok hpw ?_
      intro g hg
      obtain ⟨f, hf, hgf⟩ := List.mem_flatMap.mp hg
      have hu0ok : RangeOK lo hi u0 := by
        refine hok u0 ?_
        exact List.mem_append_left _ (List.mem_append_right _ (List.mem_singleton.mpr rfl))
      have hpsok : ∀ v ∈ ps, RangeOK lo hi v := by
        intro v hv
        exact hok v (List.mem_append_left _ (List.mem_append_left _ hv))
      have hcross : ∀ v ∈ ps, ¬ overlaps u0 v := by
        intro v hv
        have hpw' := (List.pairwise_append.mp hpw).1
        have := (List.pairwise_append.mp hpw').2.2 v hv u0 (List.mem_singleton.mpr rfl)
        intro hov
        exact this (overlaps_symm hov)
      exact subtractOne_inv lo hi ps u0 f (hp f hf) hu0ok hpsok hcross g hgf

/-- Free intervals never overlap any recorded range, provided all recorded
ranges are pairwise disjoint, inside the margins and longer than the
tolerance. -/
theorem freeIntervals_disjoint (md : ℚ) (used : List UsedRange)
    (hok : ∀ u ∈ used, RangeOK (md * (1/20)) (md - md * (1/20)) u)
    (hpw : used.Pairwise (fun a b => ¬ overlaps a b)) :
    ∀ f ∈ freeIntervals md used, ∀ u ∈ used, ¬ overlaps f u := by
  intro f hf u hu
  rw [freeIntervals] at hf
  have hperm := List.perm_insertionSort (fun a b : UsedRange => a.start ≤ b.start) used
  have hok' : ∀ v ∈ List.insertionSort (fun a b : UsedRange => a.start ≤ b.start) used,
      RangeOK (md * (1/20)) (md - md * (1/20)) v :=
    fun v hv => hok v (hperm.mem_iff.mp hv)
  have hpw' : (List.insertionSort (fun a b : UsedRange => a.start ≤ b.start) used).Pairwise
      (fun a b => ¬ overlaps a b) :=
    (hperm.pairwise_iff (fun h hov => h (overlaps_symm hov))).mpr hpw
  have hinit : ∀ g ∈ [(⟨md * (1/20), md - md * (1/20)⟩ : UsedRange)],
      PieceInv (md * (1/20)) (md - md * (1/20)) [] g := by
    intro g hg
    simp only [List.mem_singleton] at hg
    subst hg
    exact ⟨le_refl _, le_refl _, by simp, Or.inl rfl, Or.inl rfl⟩
  have hres := subtract_fold_inv (md * (1/20)) (md - md * (1/20))
    (List.insertionSort (fun a b : UsedRange => a.start ≤ b.start) used) [] _
    (by simpa using hok') (by simpa using hpw') hinit f hf
  have := hres.2.2.1 u ?_
  · exact this
  · simpa using hperm.mem_iff.mpr hu

/-- One non-saturated allocation of a clip longer than the tolerance from
a video item keeps the recorded ranges pairwise disjoint, inside the
margins and longer than the tolerance. -/
theorem selectSource_inv (m : MediaClip) (cd : ℚ) (crop : CropArg)
    (um : String → List UsedRange) (rand : ℕ → ℚ) (k : ℕ)
    (htype : m.type = MediaType.video)
    (hrand : ∀ n, 0 ≤ rand n ∧ rand n < 1)
    (hcd1 : 1/100 < cd) (hcd2 : cd ≤ m.duration - 2 * (m.duration * (1/20)))
    (hok : ∀ u ∈ um m.id, RangeOK (m.duration * (1/20)) (m.duration - m.duration * (1/20)) u)
    (hpw : (um m.id).Pairwise (fun a b => ¬ overlaps a b))
    (hnosat : (findBestSourceRange m.duration cd crop (um m.id) rand k).1 ≠ none) :
    (∀ u ∈ (selectSource m cd crop um rand k).2.1 m.id,
        RangeOK (m.duration * (1/20)) (m.duration - m.duration * (1/20)) u) ∧
    ((selectSource m cd crop um rand k).2.1 m.id).Pairwise (fun a b => ¬ overlaps a b) := by
  obtain ⟨o, ho⟩ := Option.ne_none_iff_exists'.mp hnosat
  have hle : ¬ (m.duration - 2 * (m.duration * (1/20)) < cd) := by linarith
  obtain ⟨p, hpfree, hplen, hpo1, hpo2⟩ :=
    fbsr_some_bounds m.duration cd crop (um m.id) rand k hrand hle ho
  have hpbounds := freeIntervals_bounds m.duration (um m.id) p hpfree
  have hpdisj := freeIntervals_disjoint m.duration (um m.id) hok hpw p hpfree
  have hmap : (selectSource m cd crop um rand k).2.1 m.id =
      um m.id ++ [⟨o, o + cd⟩] := by
    simp only [selectSource, htype, ho, Option.getD_some, updMap, eq_self_iff_true, if_true]
  rw [hmap]
  have hnew : RangeOK (m.duration * (1/20)) (m.duration - m.duration * (1/20)) ⟨o, o + cd⟩ := by
    refine ⟨le_trans hpbounds.1 hpo1, ?_, ?_⟩
    · exact le_trans hpo2 hpbounds.2
    · show 1/100 < o + cd - o
      linarith
  have hnd : ∀ u ∈ um m.id, ¬ overlaps u ⟨o, o + cd⟩ := by
    intro u hu hov
    have hd := hpdisj u hu
    rw [overlaps, not_and_or, not_lt, not_lt] at hd
    have hov1 : u.start < o + cd := hov.1
    have hov2 : o < u.stop := hov.2
    rcases hd with hd | hd
    · linarith
    · linarith
  constructor
  · intro u hu
    rcases List.mem_append.mp hu with hu | hu
    · exact hok u hu
    · simp only [List.mem_singleton] at hu
      subst hu
      exact hnew
  · rw [List.pairwise_append]
    refine ⟨hpw, List.pairwise_singleton _ _, ?_⟩
    intro a ha b hb
    simp only [List.mem_singleton] at hb
    subst hb
    exact hnd a ha

/-- The allocation sequence keeps the recorded ranges of the item pairwise
disjoint as long as no step saturates and every clip length is admissible. -/
theorem allocSeq_inv (m : MediaClip) (crop : CropArg) (rand : ℕ → ℚ)
    (htype : m.type = MediaType.video)
    (hrand : ∀ n, 0 ≤ rand n ∧ rand n < 1) :
    ∀ (cds : List ℚ) (um : String → List UsedRange) (k : ℕ),
      (∀ cd ∈ cds, 1/100 < cd ∧ cd ≤ m.duration - 2 * (m.duration * (1/20))) →
      (∀ u ∈ um m.id, RangeOK (m.duration * (1/20)) (m.duration - m.duration * (1/20)) u) →
      (um m.id).Pairwise (fun a b => ¬ overlaps a b) →
      noSatSeq m crop rand cds um k = true →
      (∀ u ∈ (allocSeq m crop rand cds um k).1 m.id,
          RangeOK (m.duration * (1/20)) (m.duration - m.duration * (1/20)) u) ∧
      ((allocSeq m crop rand cds um k).1 m.id).Pairwise (fun a b => ¬ overlaps a b) := by
  intro cds
  induction cds with
  | nil =>
      intro um k _ hok hpw _
      exact ⟨hok, hpw⟩
  | cons cd cds ih =>
      intro um k hcds hok hpw hnosat
      rw [noSatSeq, Bool.and_eq_true] at hnosat
      have hcd := hcds cd (List.mem_cons_self cd cds)
      have hnosat1 : (findBestSourceRange m.duration cd crop (um m.id) rand k).1 ≠ none := by
        have := hnosat.1
        rwa [Option.isSome_iff_ne_none] at this
      have hstep := selectSource_inv m cd crop um rand k htype hrand hcd.1 hcd.2 hok hpw hnosat1
      rw [allocSeq]
      exact ih _ _ (fun c hc => hcds c (List.mem_cons_of_mem cd hc)) hstep.1 hstep.2 hnosat.2

/-- C5, amended: within one generateTimeline call (the item's history
starts empty), if every allocation picks a valid free interval (the clip
fits the margin-trimmed span), every clip is longer than the 0.01 s
subtraction tolerance, no step saturates and the random draws lie in
[0, 1), then no two recorded ranges of the item overlap. -/
theorem C5_alloc_disjoint (m : MediaClip) (crop : CropArg) (rand : ℕ → ℚ)
    (cds : List ℚ) (um : String → List UsedRange) (k : ℕ)
    (htype : m.type = MediaType.video)
    (hrand : ∀ n, 0 ≤ rand n ∧ rand n < 1)
    (hinit : um m.id = [])
    (hcds : ∀ cd ∈ cds, 1/100 < cd ∧ cd ≤ m.duration - 2 * (m.duration * (1/20)))
    (hnosat : noSatSeq m crop rand cds um k = true) :
    ((allocSeq m crop rand cds um k).1 m.id).Pairwise (fun a b => ¬ overlaps a b) :=
  (allocSeq_inv m crop rand htype hrand cds um k hcds
    (by rw [hinit]; intro u hu; exact absurd hu (List.not_mem_nil u))
    (by rw [hinit]; exact List.Pairwise.nil) hnosat).2

/-- Witness for C5 at a concrete input: two 2 s clips from a 10 s video
record the disjoint ranges [0.5, 2.5) and [2.5, 4.5). -/
theorem C5_alloc_disjoint_witness :
    vid10.type = MediaType.video ∧
    noSatSeq vid10 (CropArg.bool true) rand0 [2, 2] (fun _ => []) 0 = true ∧
    ((allocSeq vid10 (CropArg.bool true) rand0 [2, 2] (fun _ => []) 0).1
        vid10.id).Pairwise (fun a b => ¬ overlaps a b) :=
  ⟨rfl, by with_unfolding_all decide,
   C5_alloc_disjoint vid10 (CropArg.bool true) rand0 [2, 2] (fun _ => []) 0 rfl
     (fun n => by norm_num [rand0]) rfl
     (fun cd hcd => by
       simp only [List.mem_cons, List.not_mem_nil, or_false] at hcd
       rcases hcd with rfl | rfl <;> norm_num [vid10])
     (by with_unfolding_all decide)⟩

/-- Appending a beat beyond the current last cut point preserves the
cut-list invariant. -/
theorem cutAcc_push (total : ℚ) (acc : List ℚ) (t : ℚ) (hinv : CutAccInv total acc)
    (h1 : acc.getLastD 0 < t) (h2 : t ≤ total) : CutAccInv total (acc ++ [t]) := by
  obtain ⟨hne, hch, hb⟩ := hinv
  have hlast : acc.getLast? = some (acc.getLast hne) := List.getLast?_eq_getLast acc hne
  have hlastmem : acc.getLast hne ∈ acc := List.getLast_mem hne
  have hlastD : acc.getLastD 0 = acc.getLast hne := by
    rw [List.getLastD_eq_getLast?, hlast, Option.getD_some]
  refine ⟨by simp, ?_, ?_⟩
  · rw [List.chain'_append]
    refine ⟨hch, List.chain'_singleton t, ?_⟩
    intro x hx y hy
    rw [hlast, Option.mem_def, Option.some.injEq] at hx
    simp only [List.head?_cons, Option.mem_def, Option.some.injEq] at hy
    subst hx
    subst hy
    rw [hlastD] at h1
    exact h1
  · intro x hx
    rcases List.mem_append.mp hx with hx | hx
    · exact hb x hx
    · simp only [List.mem_singleton] at hx
      subst hx
      have := hb _ hlastmem
      constructor
      · rw [hlastD] at h1
        linarith [this.1]
      · exact h2

/-- The emission step of the beat-locked loop preserves the cut-list
invariant. -/
theorem pushBeat_inv (beats : List ℚ) (total : ℚ) (idx' : ℤ) (acc : List ℚ)
    (hinv : CutAccInv total acc) : CutAccInv total (pushBeat beats total idx' acc) := by
  rw [pushBeat]
  rcases h : (if 0 ≤ idx' then beats[idx'.toNat]? else none) with _ | t
  · exact hinv
  · dsimp only
    split_ifs with hc
    · exact cutAcc_push total acc t hinv hc.1 hc.2
    · exact hinv

/-- The beat-locked stepping loop preserves the cut-list invariant. -/
theorem blAux_inv (beats : List ℚ) (total : ℚ) (segs : List RhythmSegment)
    (skipN : ℤ) (variance : ℚ) (rand : ℕ → ℚ) :
    ∀ (fuel : ℕ) (idx : ℤ) (acc : List ℚ) (k : ℕ), CutAccInv total acc →
      CutAccInv total (beatLockedAux beats total segs skipN variance rand fuel idx acc k).1 := by
  intro fuel
  induction fuel with
  | zero => intro idx acc k hinv; exact hinv
  | succ n ih =>
      intro idx acc k hinv
      simp only [beatLockedAux]
      split_ifs <;>
        first
          | exact hinv
          | exact ih _ _ _ (pushBeat_inv beats total _ acc hinv)

/-- The complete beat-locked cut-point list is strictly increasing and
contained in [0, totalDuration], provided the track duration is not
negative. -/
theorem blCP_inv (beats : List ℚ) (total : ℚ) (segs : List RhythmSegment)
    (skipN : ℤ) (variance : ℚ) (rand : ℕ → ℚ) (k : ℕ) (htot : 0 ≤ total) :
    CutAccInv total (beatLockedCutPoints beats total segs skipN variance rand k).1 := by
  rw [beatLockedCutPoints]
  have hinit : CutAccInv total [0] := by
    refine ⟨by simp, List.chain'_singleton 0, ?_⟩
    intro x hx
    simp only [List.mem_singleton] at hx
    subst hx
    exact ⟨le_refl 0, htot⟩
  have hres : CutAccInv total
      (if 0 < beats.length then
        beatLockedAux beats total segs skipN variance rand beats.length 0 [0] k
      else ([0], k)).1 := by
    split_ifs with hc
    · exact blAux_inv beats total segs skipN variance rand beats.length 0 [0] k hinit
    · exact hinit
  dsimp only
  by_cases hlast : (if 0 < beats.length then
      beatLockedAux beats total segs skipN variance rand beats.length 0 [0] k
    else ([0], k)).1.getLastD 0 < total
  · rw [if_pos hlast]
    exact cutAcc_push total _ total hres hlast (le_refl total)
  · rw [if_neg hlast]
    exact hres

/-- The clips generated between consecutive cut points satisfy the
duration equalities, the 0.05 s lower bound, stay ordered without overlap
and remain inside the cut-point range. -/
theorem buildClips_sound (media : List MediaClip) (isSmart : CropArg) (rand : ℕ → ℚ)
    (total : ℚ) :
    ∀ (cps : List ℚ) (vidx : ℕ) (um : String → List UsedRange) (k idc : ℕ),
      cps.Chain' (· < ·) → (∀ x ∈ cps, 0 ≤ x ∧ x ≤ total) →
      (∀ c ∈ buildClips media isSmart rand cps vidx um k idc,
          c.duration = c.timelineEnd - c.timelineStart ∧
          c.sourceEnd - c.sourceStart = c.duration ∧
          1/20 ≤ c.duration ∧ 0 ≤ c.timelineStart ∧ c.timelineEnd ≤ total) ∧
      (buildClips media isSmart rand cps vidx um k idc).Chain'
        (fun a b => a.timelineEnd ≤ b.timelineStart) ∧
      (∀ c ∈ buildClips media isSmart rand cps vidx um k idc,
          ∀ h ∈ cps.head?, h ≤ c.timelineStart) := by
  intro cps
  induction cps with
  | nil =>
      intro vidx um k idc _ _
      refine ⟨?_, ?_, ?_⟩ <;> simp [buildClips]
  | cons p1 tail ih =>
      cases tail with
      | nil =>
          intro vidx um k idc _ _
          refine ⟨?_, ?_, ?_⟩ <;> simp [buildClips]
      | cons p2 rest =>
          intro vidx um k idc hch hb
          have hp12 : p1 < p2 := (List.chain'_cons.mp hch).1
          have hch' : (p2 :: rest).Chain' (· < ·) := (List.chain'_cons.mp hch).2
          have hb' : ∀ x ∈ p2 :: rest, 0 ≤ x ∧ x ≤ total :=
            fun x hx => hb x (List.mem_cons_of_mem _ hx)
          simp only [buildClips]
          by_cases hd : p2 - p1 < 1/20
          · rw [if_pos hd]
            obtain ⟨A, B, C⟩ := ih vidx um k idc hch' hb'
            refine ⟨A, B, ?_⟩
            intro c hc h hh
            simp only [List.head?_cons, Option.mem_def, Option.some.injEq] at hh
            subst hh
            have := C c hc p2 (by simp)
            linarith
          · rw [if_neg hd]
            obtain ⟨A, B, C⟩ := ih (vidx + 1) _ _ (idc + 1) hch' hb'
            have hb1 := hb p1 (List.mem_cons_self _ _)
            have hb2 := hb p2 (List.mem_cons_of_mem _ (List.mem_cons_self _ _))
            refine ⟨?_, ?_, ?_⟩
            · intro c hc
              rcases List.mem_cons.mp hc with rfl | hc
              · refine ⟨by simp [mkClip], by simp [mkClip], ?_, ?_, ?_⟩
                · show 1/20 ≤ p2 - p1
                  linarith [not_lt.mp hd]
                · show 0 ≤ p1
                  exact hb1.1
                · show p2 ≤ total
                  exact hb2.2
              · exact A c hc
            · rw [List.chain'_cons']
              refine ⟨?_, B⟩
              intro y hy
              have hymem := List.mem_of_mem_head? hy
              have := C y hymem p2 (by simp)
              show p2 ≤ y.timelineStart
              exact this
            · intro c hc h hh
              simp only [List.head?_cons, Option.mem_def, Option.some.injEq] at hh
              subst hh
              rcases List.mem_cons.mp hc with rfl | hc
              · show p1 ≤ p1
                exact le_refl p1
              · have := C c hc p2 (by simp)
                linarith

/-- The emission step never empties the cut list. -/
theorem pushBeat_ne (beats : List ℚ) (total : ℚ) (idx' : ℤ) (acc : List ℚ)
    (h : acc ≠ []) : pushBeat beats total idx' acc ≠ [] := by
  rw [pushBeat]
  rcases (if 0 ≤ idx' then beats[idx'.toNat]? else none) with _ | t
  · exact h
  · dsimp only
    split_ifs
    · simp
    · exact h

/-- The beat-locked stepping loop never empties the cut list. -/
theorem blAux_ne (beats : List ℚ) (total : ℚ) (segs : List RhythmSegment)
    (skipN : ℤ) (variance : ℚ) (rand : ℕ → ℚ) :
    ∀ (fuel : ℕ) (idx : ℤ) (acc : List ℚ) (k : ℕ), acc ≠ [] →
      (beatLockedAux beats total segs skipN variance rand fuel idx acc k).1 ≠ [] := by
  intro fuel
  induction fuel with
  | zero => intro idx acc k h; exact h
  | succ n ih =>
      intro idx acc k h
      simp only [beatLockedAux]
      split_ifs <;>
        first
          | exact h
          | exact ih _ _ _ (pushBeat_ne beats total _ acc h)

/-- The beat-locked cut-point list is never empty. -/
theorem blCP_ne (beats : List ℚ) (total : ℚ) (segs : List RhythmSegment)
    (skipN : ℤ) (variance : ℚ) (rand : ℕ → ℚ) (k : ℕ) :
    (beatLockedCutPoints beats total segs skipN variance rand k).1 ≠ [] := by
  rw [beatLockedCutPoints]
  dsimp only
  by_cases hlast : (if 0 < beats.length then
      beatLockedAux beats total segs skipN variance rand beats.length 0 [0] k
    else ([0], k)).1.getLastD 0 < total
  · rw [if_pos hlast]
    simp
  · rw [if_neg hlast]
    split_ifs with hc
    · exact blAux_ne beats total segs skipN variance rand beats.length 0 [0] k (by simp)
    · simp

/-- In beat-locked mode with a nonempty effective beat list, the produced
timeline is exactly the cut-branch output. -/
theorem gT_beatLocked_eq (media : List MediaClip) (audio : AudioTrack)
    (settings : SyncSettings) (fuel : ℕ) (rand : ℕ → ℚ)
    (hmedia : media ≠ [])
    (hmode : settings.videoMode = VideoMode.beatLocked)
    (hbeats : effectiveBeats audio settings ≠ []) :
    generateTimeline media (some audio) settings fuel rand =
      buildClips media (CropArg.bool (settings.cropMode = CropMode.smart)) rand
        (beatLockedCutPoints (effectiveBeats audio settings)
          (if audio.duration = 0 then 1 else audio.duration)
          (settings.rhythmSegments.getD [])
          (if settings.skipEveryN = 0 then 1 else settings.skipEveryN)
          (settings.durationVariance / 100) rand 0).1
        0 (fun _ => [])
        (beatLockedCutPoints (effectiveBeats audio settings)
          (if audio.duration = 0 then 1 else audio.duration)
          (settings.rhythmSegments.getD [])
          (if settings.skipEveryN = 0 then 1 else settings.skipEveryN)
          (settings.durationVariance / 100) rand 0).2 0 := by
  simp only [generateTimeline]
  rw [if_neg hmedia]
  rw [scheduleCutPoints, if_pos (And.intro hmode hbeats)]
  rw [if_pos (blCP_ne _ _ _ _ _ rand 0)]

/-- C2, amended: in beat-locked mode with a nonempty effective beat list
and a nonnegative track duration, consecutive clips are ordered and
non-overlapping (timelineEnd ≤ next timelineStart), every clip satisfies
duration = timelineEnd − timelineStart = sourceEnd − sourceStart ≥ 0.05
(positive in particular) and lies inside [0, totalDuration]; exact
contiguity and exact coverage fail in general because sub-0.05 s gaps
between cut points are skipped. -/
theorem C2_timeline_invariants (media : List MediaClip) (audio : AudioTrack)
    (settings : SyncSettings) (fuel : ℕ) (rand : ℕ → ℚ)
    (hmode : settings.videoMode = VideoMode.beatLocked)
    (hbeats : effectiveBeats audio settings ≠ [])
    (hdur : 0 ≤ audio.duration) :
    (∀ c ∈ generateTimeline media (some audio) settings fuel rand,
        c.duration = c.timelineEnd - c.timelineStart ∧
        c.sourceEnd - c.sourceStart = c.duration ∧
        1/20 ≤ c.duration ∧ 0 ≤ c.timelineStart ∧
        c.timelineEnd ≤ (if audio.duration = 0 then 1 else audio.duration)) ∧
    (generateTimeline media (some audio) settings fuel rand).Chain'
      (fun a b => a.timelineEnd ≤ b.timelineStart) := by
  by_cases hmedia : media = []
  · constructor <;> simp [generateTimeline, hmedia]
  · rw [gT_beatLocked_eq media audio settings fuel rand hmedia hmode hbeats]
    have htot : 0 ≤ (if audio.duration = 0 then 1 else audio.duration) := by
      split_ifs
      · norm_num
      · exact hdur
    obtain ⟨hne, hch, hb⟩ := blCP_inv (effectiveBeats audio settings)
      (if audio.duration = 0 then 1 else audio.duration)
      (settings.rhythmSegments.getD [])
      (if settings.skipEveryN = 0 then 1 else settings.skipEveryN)
      (settings.durationVariance / 100) rand 0 htot
    obtain ⟨A, B, _⟩ := buildClips_sound media
      (CropArg.bool (settings.cropMode = CropMode.smart)) rand
      (if audio.duration = 0 then 1 else audio.duration) _ 0 (fun _ => []) _ 0 hch hb
    exact ⟨A, B⟩

/-- Witness for C2 at a concrete input. -/
theorem C2_timeline_invariants_witness :
    baseSettings.videoMode = VideoMode.beatLocked ∧
    effectiveBeats audioTinyGap baseSettings ≠ [] ∧ (0:ℚ) ≤ audioTinyGap.duration ∧
    ((∀ c ∈ generateTimeline [img1] (some audioTinyGap) baseSettings 100 rand0,
        c.duration = c.timelineEnd - c.timelineStart ∧
        c.sourceEnd - c.sourceStart = c.duration ∧
        1/20 ≤ c.duration ∧ 0 ≤ c.timelineStart ∧
        c.timelineEnd ≤ (if audioTinyGap.duration = 0 then 1 else audioTinyGap.duration)) ∧
      (generateTimeline [img1] (some audioTinyGap) baseSettings 100 rand0).Chain'
        (fun a b => a.timelineEnd ≤ b.timelineStart)) :=
  ⟨rfl, by with_unfolding_all decide, by norm_num [audioTinyGap],
   C2_timeline_invariants [img1] audioTinyGap baseSettings 100 rand0 rfl
     (by with_unfolding_all decide) (by norm_num [audioTinyGap])⟩

/-- With no beats the legacy loop advances by fixed two-second steps,
ignoring the clip-length bounds. -/
theorem legacyNextCut_nil (minD maxD total ct : ℚ) (algo : BeatAlgorithm)
    (rand : ℕ → ℚ) (k : ℕ) :
    legacyNextCut [] minD maxD total ct algo rand k = (min (ct + 2) total, k) := by
  simp [legacyNextCut]

/-- With no beats the whole legacy loop is independent of the clip-length
bounds. -/
theorem legacyLoop_nil_minmax (media : List MediaClip) (total mn1 mx1 mn2 mx2 : ℚ)
    (mode : VideoMode) (algo : BeatAlgorithm) (isSmart : CropArg) (rand : ℕ → ℚ) :
    ∀ (fuel : ℕ) (ct : ℚ) (nmi : ℕ) (um : String → List UsedRange) (k : ℕ)
      (prev : Option String) (idc : ℕ),
      legacyLoop media [] total mn1 mx1 mode algo isSmart rand fuel ct nmi um k prev idc =
      legacyLoop media [] total mn2 mx2 mode algo isSmart rand fuel ct nmi um k prev idc := by
  intro fuel
  induction fuel with
  | zero => intro ct nmi um k prev idc; rfl
  | succ n ih =>
      intro ct nmi um k prev idc
      simp only [legacyLoop, legacyNextCut_nil]
      split_ifs <;>
        first
          | rfl
          | (refine congrArg₂ _ rfl ?_; exact ih _ _ _ _ _ _)

/-- The metronome grid loop never empties the cut list. -/
theorem mAux_ne (total baseInterval variance : ℚ) (rand : ℕ → ℚ) :
    ∀ (fuel : ℕ) (current : ℚ) (acc : List ℚ) (k : ℕ), acc ≠ [] →
      (metronomeAux total baseInterval variance rand fuel current acc k).1 ≠ [] := by
  intro fuel
  induction fuel with
  | zero => intro current acc k h; exact h
  | succ n ih =>
      intro current acc k h
      simp only [metronomeAux]
      split_ifs <;>
        first
          | exact h
          | exact ih _ _ _ h
          | exact ih _ _ _ (by simp)

/-- The metronome cut-point list is never empty. -/
theorem mCP_ne (beats : List ℚ) (total : ℚ) (bpmOpt manualBpm : Option ℚ)
    (skipN : ℤ) (variance : ℚ) (rand : ℕ → ℚ) (k fuel : ℕ) :
    (metronomeCutPoints beats total bpmOpt manualBpm skipN variance rand k fuel).1 ≠ [] := by
  rw [metronomeCutPoints.eq_def]
  dsimp only
  split_ifs with h1
  · simp
  · apply mAux_ne
    rcases beats with _ | ⟨b0, bs⟩
    · simp
    · dsimp only
      split_ifs <;> simp

/-- When a mode that schedules cut points is selected and the cut-point
list nevertheless comes back empty, the effective beat list was empty. -/
theorem scheduleCutPoints_nil (beats : List ℚ) (total : ℚ) (settings : SyncSettings)
    (bpmOpt : Option ℚ) (skipN : ℤ) (variance : ℚ) (rand : ℕ → ℚ) (fuel : ℕ)
    (hmode : settings.videoMode = VideoMode.beatLocked ∨
      settings.videoMode = VideoMode.metronome)
    (hnil : (scheduleCutPoints beats total settings bpmOpt skipN variance rand fuel).1 = []) :
    beats = [] := by
  by_contra hb
  rw [scheduleCutPoints] at hnil
  rcases hmode with hm | hm
  · rw [if_pos (And.intro hm hb)] at hnil
    exact blCP_ne beats total (settings.rhythmSegments.getD []) skipN variance rand 0 hnil
  · rw [if_neg (by rw [hm]; simp), if_pos (And.intro hm (Or.inr (Or.inr hb)))] at hnil
    exact mCP_ne beats total bpmOpt settings.manualBpm skipN variance rand 0 fuel hnil

/-- C8: in beat-locked and metronome modes the generated timeline does not
depend on minDuration and maxDuration — two runs differing only in those
fields, with the same random stream, produce identical clip lists (the
clip-length bounds only drive the legacy modes). -/
theorem C8_minmax_independent (media : List MediaClip) (audio : Option AudioTrack)
    (s : SyncSettings) (fuel : ℕ) (rand : ℕ → ℚ) (mn1 mx1 mn2 mx2 : ℚ)
    (hmode : s.videoMode = VideoMode.beatLocked ∨ s.videoMode = VideoMode.metronome) :
    generateTimeline media audio { s with minDuration := mn1, maxDuration := mx1 } fuel rand =
    generateTimeline media audio { s with minDuration := mn2, maxDuration := mx2 } fuel rand := by
  cases audio with
  | none => rfl
  | some a =>
      have key : ∀ mn mx : ℚ,
          generateTimeline media (some a) { s with minDuration := mn, maxDuration := mx }
            fuel rand =
          (if media = [] then [] else
            if (scheduleCutPoints (effectiveBeats a s)
                (if a.duration = 0 then 1 else a.duration) s a.bpm
                (if s.skipEveryN = 0 then 1 else s.skipEveryN)
                (s.durationVariance / 100) rand fuel).1 ≠ [] then
              buildClips media (CropArg.bool (s.cropMode = CropMode.smart)) rand
                (scheduleCutPoints (effectiveBeats a s)
                  (if a.duration = 0 then 1 else a.duration) s a.bpm
                  (if s.skipEveryN = 0 then 1 else s.skipEveryN)
                  (s.durationVariance / 100) rand fuel).1
                0 (fun _ => [])
                (scheduleCutPoints (effectiveBeats a s)
                  (if a.duration = 0 then 1 else a.duration) s a.bpm
                  (if s.skipEveryN = 0 then 1 else s.skipEveryN)
                  (s.durationVariance / 100) rand fuel).2 0
            else
              legacyLoop media (effectiveBeats a s)
                (if a.duration = 0 then 1 else a.duration) mn mx s.videoMode s.algorithm
                (CropArg.bool (s.cropMode = CropMode.smart)) rand
                fuel 0 0 (fun _ => []) 0 none 0) := by
        intro mn mx
        rfl
      rw [key mn1 mx1, key mn2 mx2]
      by_cases hm : media = []
      · rw [if_pos hm, if_pos hm]
      · rw [if_neg hm, if_neg hm]
        by_cases hcp : (scheduleCutPoints (effectiveBeats a s)
            (if a.duration = 0 then 1 else a.duration) s a.bpm
            (if s.skipEveryN = 0 then 1 else s.skipEveryN)
            (s.durationVariance / 100) rand fuel).1 ≠ []
        · rw [if_pos hcp, if_pos hcp]
        · rw [if_neg hcp, if_neg hcp]
          have hbeats : effectiveBeats a s = [] :=
            scheduleCutPoints_nil (effectiveBeats a s)
              (if a.duration = 0 then 1 else a.duration) s a.bpm
              (if s.skipEveryN = 0 then 1 else s.skipEveryN)
              (s.durationVariance / 100) rand fuel hmode (not_ne_iff.mp hcp)
          rw [hbeats]
          exact legacyLoop_nil_minmax media (if a.duration = 0 then 1 else a.duration)
            mn1 mx1 mn2 mx2 s.videoMode s.algorithm
            (CropArg.bool (s.cropMode = CropMode.smart)) rand fuel 0 0 (fun _ => []) 0 none 0

/-- Witness for C8 at a concrete input. -/
theorem C8_minmax_independent_witness :
    (baseSettings.videoMode = VideoMode.beatLocked ∨
      baseSettings.videoMode = VideoMode.metronome) ∧
    generateTimeline [img1] (some audioNoBeats)
        { baseSettings with minDuration := 1/2, maxDuration := 4 } 5 rand0 =
      generateTimeline [img1] (some audioNoBeats)
        { baseSettings with minDuration := 1, maxDuration := 3 } 5 rand0 :=
  ⟨Or.inl rfl,
   C8_minmax_independent [img1] (some audioNoBeats) baseSettings 5 rand0 (1/2) 4 1 3
     (Or.inl rfl)⟩

/-- When the duration variance is not positive, the beat-locked stepping
loop consumes no random draws, so its cut list does not depend on the
random stream or the draw counter. -/
theorem blAux_rand_irrel (beats : List ℚ) (total : ℚ) (segs : List RhythmSegment)
    (skipN : ℤ) (variance : ℚ) (hvar : ¬ variance > 0) (rand rand' : ℕ → ℚ) :
    ∀ (fuel : ℕ) (idx : ℤ) (acc : List ℚ) (k k' : ℕ),
      (beatLockedAux beats total segs skipN variance rand fuel idx acc k).1 =
      (beatLockedAux beats total segs skipN variance rand' fuel idx acc k').1 := by
  intro fuel
  induction fuel with
  | zero => intro idx acc k k'; rfl
  | succ n ih =>
      intro idx acc k k'
      simp only [beatLockedAux, if_neg hvar]
      split_ifs <;> first | rfl | exact ih _ _ _ _

/-- The whole beat-locked cut-point list is independent of the random
stream and the draw counter when the variance is not positive. -/
theorem blCP_rand_irrel (beats : List ℚ) (total : ℚ) (segs : List RhythmSegment)
    (skipN : ℤ) (variance : ℚ) (hvar : ¬ variance > 0) (rand rand' : ℕ → ℚ) (k k' : ℕ) :
    (beatLockedCutPoints beats total segs skipN variance rand k).1 =
    (beatLockedCutPoints beats total segs skipN variance rand' k').1 := by
  have h : (if 0 < beats.length then
        beatLockedAux beats total segs skipN variance rand beats.length 0 [0] k
      else ([0], k)).1
      = (if 0 < beats.length then
        beatLockedAux beats total segs skipN variance rand' beats.length 0 [0] k'
      else ([0], k')).1 := by
    split_ifs with hc
    · exact blAux_rand_irrel beats total segs skipN variance hvar rand rand'
        beats.length 0 [0] k k'
    · rfl
  simp only [beatLockedCutPoints]
  rw [h]

/-- C1, counterexample: with beats = [0.5, 1.0, 1.5, 2.0, 2.5, 3.0],
totalDuration = 3.0, skipEveryN = 2 and no variance, the beat-locked
scheduler does not produce the claimed cut points [0, 1.0, 2.0, 3.0]. -/
theorem C1_counterexample :
    (beatLockedCutPoints [1/2, 1, 3/2, 2, 5/2, 3] 3 [] 2 0 rand0 0).1 ≠ [0, 1, 2, 3] := by
  with_unfolding_all decide

/-- C1, amended: the loop advances the beat index by the step before
emitting, so stepping by 2 from index 0 lands on indices 2 and 4 (beats
1.5 and 2.5) and then appends the total duration: the cut points are
[0, 1.5, 2.5, 3.0], for every random stream (no draw is consumed when the
variance is 0). -/
theorem C1_beat_locked_cut_points (rand : ℕ → ℚ) (k : ℕ) :
    (beatLockedCutPoints [1/2, 1, 3/2, 2, 5/2, 3] 3 [] 2 0 rand k).1 = [0, 3/2, 5/2, 3] :=
  calc (beatLockedCutPoints [1/2, 1, 3/2, 2, 5/2, 3] 3 [] 2 0 rand k).1
      = (beatLockedCutPoints [1/2, 1, 3/2, 2, 5/2, 3] 3 [] 2 0 rand0 0).1 :=
        blCP_rand_irrel [1/2, 1, 3/2, 2, 5/2, 3] 3 [] 2 0 (by norm_num) rand rand0 k 0
    _ = [0, 3/2, 5/2, 3] := by with_unfolding_all decide

/-- C4: with cropMode = 'center' the call site hands the allocator the
boolean false (cropMode === 'smart' is false), so the dead string switch
implementing center/start/end/golden is skipped and the offset is drawn
uniformly from the slack instead of centered: on a 10 s video, a 3 s clip
and the all-zero stream the produced source offset is 0.5 (the start of
the selected free interval [0.5, 9.5]), while the 'center' policy demands
the midpoint-based offset 3.5. -/
theorem C4_crop_mode_dead_switch :
    ((generateTimeline [vid10] (some audioOneBeat)
        { baseSettings with cropMode := CropMode.center } 100 rand0).map
      (fun c => c.sourceStart)) = [1/2] ∧
    centerPolicyOffset ⟨1/2, 19/2⟩ 3 = 7/2 ∧ ((1:ℚ)/2 ≠ 7/2) := by
  with_unfolding_all decide

/-- C2, counterexample: on beats [0.98, 1, 1.02, 2] with total duration 3
in beat-locked mode, the 20 ms gap between the cut points 1 and 1.02 is
skipped, so the produced clips ([0,1], [1.02,2], [2,3]) are neither
contiguous nor a cover of [0, 3]. -/
theorem C2_counterexample :
    ¬ C2Spec 3 (generateTimeline [img1] (some audioTinyGap) baseSettings 100 rand0) := by
  with_unfolding_all decide

/-- C5, counterexample: two 0.95 s clips allocated from a 1 s video both
take the clip-longer-than-usable-span fallback, which does not signal
saturation; the recorded ranges coincide ([0.025, 0.975) twice) and thus
overlap. -/
theorem C5_counterexample :
    noSatSeq vid1 (CropArg.bool true) rand0 [19/20, 19/20] (fun _ => []) 0 = true ∧
    ¬ ((allocSeq vid1 (CropArg.bool true) rand0 [19/20, 19/20] (fun _ => []) 0).1
        vid1.id).Pairwise (fun a b => ¬ overlaps a b) := by
  constructor
  · with_unfolding_all decide
  · with_unfolding_all decide
